import Mathlib

/-!
# Command resolution and dispatch of the docker command-line client

A shallow embedding of `api/client/cli.go`: the method table `getMethod`, the
dispatcher `Cmd`, the flag-set factory `Subcmd`, the configuration loader
`LoadConfigFile` and the constructor `NewDockerCli`, followed by the
properties of the specification that were checked against them.

Go strings are byte sequences, and `getMethod` slices its argument by bytes
before handing the pieces to `strings.ToUpper` and `strings.ToLower`, which
work on the UTF-8 decoding of their argument.  The embedding therefore keeps
strings as lists of bytes and models the decoder, the encoder and the two case
mappings of the Go library.
-/

namespace Client

/-! ## Go strings -/

/-- One byte of a Go string. -/
abbrev Byte := Fin 256

/-- A Go `string`: an immutable sequence of bytes, not necessarily valid UTF-8. -/
abbrev GoString := List Byte

/-- The bytes of a string literal of the source; every literal of `cli.go` is ASCII. -/
def ascii (s : String) : GoString :=
  s.toList.map (fun c => ⟨c.toNat % 256, Nat.mod_lt _ (by decide)⟩)

/-- The slice expression `s[:hi]`; `none` is the run-time panic "slice bounds out of range". -/
def sliceTo {α : Type} (s : List α) (hi : Nat) : Option (List α) :=
  if hi ≤ s.length then some (s.take hi) else none

/-- The slice expression `s[lo:]`; `none` is the run-time panic "slice bounds out of range". -/
def sliceFrom {α : Type} (s : List α) (lo : Nat) : Option (List α) :=
  if lo ≤ s.length then some (s.drop lo) else none

/-- The index expression `s[i]`; `none` is the run-time panic "index out of range". -/
def index {α : Type} (s : List α) (i : Nat) : Option α :=
  s.get? i

/-! ## The Go library: `unicode/utf8`, `unicode`, `strings` -/

/-- The rune `utf8.RuneError`, U+FFFD. -/
def RuneError : Nat := 0xFFFD

/-- The rune `utf8.MaxRune`, U+10FFFF. -/
def MaxRune : Nat := 0x10FFFF

/-- Whether `c` is a UTF-8 continuation byte, `0x80 <= c < 0xC0`. -/
def isCont (c : Nat) : Bool := decide (0x80 ≤ c) && decide (c < 0xC0)

/-- Go's `utf8.DecodeRuneInString` on a non-empty prefix: the rune and its width in
bytes.  Every malformed sequence (a stray continuation byte, a truncated or
overlong encoding, a surrogate, a value above `MaxRune`) decodes to
`(RuneError, 1)`; the empty string decodes to `(RuneError, 0)`.  The masks and
shifts of the source are written as `%` and `*`:
`c0&0x1F<<6 | c1&0x3F` is `c0 % 32 * 64 + c1 % 64`. -/
def DecodeRuneInString (s : GoString) : Nat × Nat :=
  match s with
  | [] => (RuneError, 0)
  | c0 :: rest =>
    if c0.val < 0x80 then (c0.val, 1)
    else if c0.val < 0xC0 then (RuneError, 1)
    else
      match rest with
      | [] => (RuneError, 1)
      | c1 :: rest1 =>
        if !isCont c1.val then (RuneError, 1)
        else if c0.val < 0xE0 then
          let r := c0.val % 32 * 64 + c1.val % 64
          if r ≤ 0x7F then (RuneError, 1) else (r, 2)
        else
          match rest1 with
          | [] => (RuneError, 1)
          | c2 :: rest2 =>
            if !isCont c2.val then (RuneError, 1)
            else if c0.val < 0xF0 then
              let r := c0.val % 16 * 4096 + c1.val % 64 * 64 + c2.val % 64
              if r ≤ 0x7FF then (RuneError, 1)
              else if 0xD800 ≤ r ∧ r ≤ 0xDFFF then (RuneError, 1)
              else (r, 3)
            else
              match rest2 with
              | [] => (RuneError, 1)
              | c3 :: _ =>
                if !isCont c3.val then (RuneError, 1)
                else if c0.val < 0xF8 then
                  let r := c0.val % 8 * 262144 + c1.val % 64 * 4096 + c2.val % 64 * 64
                    + c3.val % 64
                  if r ≤ 0xFFFF ∨ MaxRune < r then (RuneError, 1) else (r, 4)
                else (RuneError, 1)

/-- A number reduced to one byte. -/
def toByte (n : Nat) : Byte := ⟨n % 256, Nat.mod_lt _ (by decide)⟩

/-- Go's `utf8.EncodeRune`: the UTF-8 encoding of a rune; surrogates and values
above `MaxRune` are encoded as `RuneError`. -/
def EncodeRune (r : Nat) : GoString :=
  if r ≤ 0x7F then [toByte r]
  else if r ≤ 0x7FF then [toByte (0xC0 + r / 64), toByte (0x80 + r % 64)]
  else if MaxRune < r ∨ (0xD800 ≤ r ∧ r ≤ 0xDFFF) then [0xEF, 0xBF, 0xBD]
  else if r ≤ 0xFFFF then
    [toByte (0xE0 + r / 4096), toByte (0x80 + r / 64 % 64), toByte (0x80 + r % 64)]
  else
    [toByte (0xF0 + r / 262144), toByte (0x80 + r / 4096 % 64), toByte (0x80 + r / 64 % 64),
      toByte (0x80 + r % 64)]

/-- Go's `unicode.ToUpper`.  The case table of the library is reproduced for
U+0000..U+00FF and for the two runes outside that block whose upper case is an
ASCII letter (U+0131 dotless i, U+017F long s); the remaining entries of the
table, which map runes above U+00FF to runes above U+007F, are left out and
those runes are returned unchanged.  `getMethod` compares the result with
ASCII labels only, which no encoding of a rune above U+007F can equal. -/
def unicodeToUpper (r : Nat) : Nat :=
  if 0x61 ≤ r ∧ r ≤ 0x7A then r - 32
  else if r = 0xB5 then 0x39C
  else if (0xE0 ≤ r ∧ r ≤ 0xF6) ∨ (0xF8 ≤ r ∧ r ≤ 0xFE) then r - 32
  else if r = 0xFF then 0x178
  else if r = 0x131 then 0x49
  else if r = 0x17F then 0x53
  else r

/-- Go's `unicode.ToLower`.  The case table of the library is reproduced for
U+0000..U+00FF and for the two runes outside that block whose lower case is an
ASCII letter (U+0130 capital I with dot above, U+212A Kelvin sign); the
remaining entries of the table, which map runes above U+00FF to runes above
U+007F, are left out and those runes are returned unchanged.  `getMethod`
compares the result with ASCII labels only, which no encoding of a rune above
U+007F can equal. -/
def unicodeToLower (r : Nat) : Nat :=
  if 0x41 ≤ r ∧ r ≤ 0x5A then r + 32
  else if (0xC0 ≤ r ∧ r ≤ 0xD6) ∨ (0xD8 ≤ r ∧ r ≤ 0xDE) then r + 32
  else if r = 0x130 then 0x69
  else if r = 0x212A then 0x6B
  else r

/-- The loop of Go's `strings.Map` for a mapping that never drops a rune: decode
the next rune, append the encoding of its image, continue after it.  `fuel`
bounds the number of iterations; the length of the string is always enough. -/
def mapLoop (mapping : Nat → Nat) : Nat → GoString → GoString
  | 0, _ => []
  | _, [] => []
  | fuel + 1, c :: rest =>
    let d := DecodeRuneInString (c :: rest)
    EncodeRune (mapping d.1) ++ mapLoop mapping fuel ((c :: rest).drop d.2)

/-- Go's `strings.Map`. -/
def stringsMap (mapping : Nat → Nat) (s : GoString) : GoString :=
  mapLoop mapping s.length s

/-- Go's `strings.ToUpper`. -/
def stringsToUpper (s : GoString) : GoString := stringsMap unicodeToUpper s

/-- Go's `strings.ToLower`. -/
def stringsToLower (s : GoString) : GoString := stringsMap unicodeToLower s

/-! ## The method table -/

/-- The handler methods of `DockerCli` that `getMethod` can return, named as in
the source without the `Cmd` prefix. -/
inductive Method where
  | Attach | Build | Commit | Cp | Diff | Events | Export | Help | History
  | Images | Import | Info | Inspect | Kill | Load | Login | Logout | Logs
  | Pause | Port | Ps | Pull | Push | Restart | Rm | Rmi | Run | Save | Search
  | Start | Stop | Tag | Top | Unpause | Version | Wait
  deriving DecidableEq, Repr, Fintype

/-- The `case` clauses of the `switch` in `getMethod`, in source order (the
label `"CmdAttach"` occurs twice in the source). -/
def switchCases : List (GoString × Method) :=
  [ (ascii "CmdAttach", .Attach), (ascii "CmdAttach", .Attach),
    (ascii "CmdBuild", .Build), (ascii "CmdCommit", .Commit), (ascii "CmdCp", .Cp),
    (ascii "CmdDiff", .Diff), (ascii "CmdEvents", .Events), (ascii "CmdExport", .Export),
    (ascii "CmdHelp", .Help), (ascii "CmdHistory", .History), (ascii "CmdImages", .Images),
    (ascii "CmdImport", .Import), (ascii "CmdInfo", .Info), (ascii "CmdInspect", .Inspect),
    (ascii "CmdKill", .Kill), (ascii "CmdLoad", .Load), (ascii "CmdLogin", .Login),
    (ascii "CmdLogout", .Logout), (ascii "CmdLogs", .Logs), (ascii "CmdPause", .Pause),
    (ascii "CmdPort", .Port), (ascii "CmdPs", .Ps), (ascii "CmdPull", .Pull),
    (ascii "CmdPush", .Push), (ascii "CmdRestart", .Restart), (ascii "CmdRm", .Rm),
    (ascii "CmdRmi", .Rmi), (ascii "CmdRun", .Run), (ascii "CmdSave", .Save),
    (ascii "CmdSearch", .Search), (ascii "CmdStart", .Start), (ascii "CmdStop", .Stop),
    (ascii "CmdTag", .Tag), (ascii "CmdTop", .Top), (ascii "CmdUnpause", .Unpause),
    (ascii "CmdVersion", .Version), (ascii "CmdWait", .Wait) ]

/-- The `switch` statement: the first clause whose label equals the tag is
taken, the `default` clause when there is none. -/
def switchOn (tag : GoString) : List (GoString × Method) → Option Method × Bool
  | [] => (none, false)
  | (label, m) :: clauses => if tag = label then (some m, true) else switchOn tag clauses

/-- The method `getMethod`.  The result is the pair of the source (a `nil`
function value is `none`); the outer `none` is a run-time panic of a slice
expression. -/
def getMethod (name : GoString) : Option (Option Method × Bool) :=
  if name.length = 0 then some (none, false)
  else
    (sliceTo name 1).bind fun head =>
    (sliceFrom name 1).bind fun tail =>
    let methodName := ascii "Cmd" ++ stringsToUpper head ++ stringsToLower tail
    some (switchOn methodName switchCases)

/-! ## The client context and the process state -/

/-- An `error` value; `nil` is `none` of `Option GoError`. -/
structure GoError where
  msg : GoString
  deriving DecidableEq, Repr

/-- The dynamic value of a non-nil `io.Writer`: either a `*os.File`, given by
what its `Fd()` method returns, or a value of any other type. -/
inductive Writer where
  | osFile (fd : Nat)
  | other (id : Nat)
  deriving DecidableEq, Repr

/-- A non-nil `io.ReadCloser`. -/
structure ReadCloser where
  id : Nat
  deriving DecidableEq, Repr

/-- What a non-nil `*tls.Config` points to. -/
structure TLSConfig where
  id : Nat
  deriving DecidableEq, Repr

/-- What a non-nil `*registry.ConfigFile` points to. -/
structure ConfigFile where
  id : Nat
  deriving DecidableEq, Repr

/-- The struct `DockerCli`.  Interface and pointer fields are `Option`s, `none`
being `nil`; `uintptr` is a natural number. -/
structure DockerCli where
  proto : GoString
  addr : GoString
  configFile : Option ConfigFile
  «in» : Option ReadCloser
  out : Option Writer
  err : Option Writer
  isTerminal : Bool
  terminalFd : Nat
  tlsConfig : Option TLSConfig
  scheme : GoString
  deriving DecidableEq, Repr

/-- The variable `os.Stdout`, the file of descriptor 1. -/
def osStdout : Writer := .osFile 1

/-- The state a call of `Cmd` runs in: the struct behind the receiver `cli`, the
writes made so far (destination and bytes, oldest first), and whatever else
the handlers can observe or change. -/
structure State (σ : Type) where
  cli : DockerCli
  writes : List (Writer × GoString)
  ext : σ

/-- The handler methods `cli.CmdAttach`, ..., `cli.CmdWait`, whose bodies are
outside this file: each takes the argument list and the state and yields its
`error` result and the state it leaves. -/
abbrev Handlers (σ : Type) := Method → List GoString → State σ → Option GoError × State σ

/-- Go's `fmt.Sprintln` on string operands: the operands separated by single
spaces, followed by a newline. -/
def Sprintln (operands : List GoString) : GoString :=
  List.intercalate (ascii " ") operands ++ ascii "\n"

/-- Go's `fmt.Println` on string operands: one write of the line to `os.Stdout`. -/
def Println {σ : Type} (operands : List GoString) (s : State σ) : State σ :=
  { s with writes := s.writes ++ [(osStdout, Sprintln operands)] }

/-- The method `Cmd`.  `none` is a run-time panic of `Cmd` itself (an index or
slice out of range, or a call of a `nil` function value). -/
def Cmd {σ : Type} (handlers : Handlers σ) (args : List GoString) (s : State σ) :
    Option (Option GoError × State σ) :=
  if args.length > 0 then
    (index args 0).bind fun arg0 =>
    (getMethod arg0).bind fun r =>
    if !r.2 then
      let s1 := Println [ascii "Error: Command not found:", arg0] s
      (sliceFrom args 1).bind fun rest => some (handlers .Help rest s1)
    else
      (sliceFrom args 1).bind fun rest =>
      match r.1 with
      | none => none
      | some method => some (handlers method rest s)
  else some (handlers .Help args s)

/-- The function `NewDockerCli`.  `term.IsTerminal`, which asks the operating
system about a descriptor, is the parameter `IsTerminal`; the type assertion
`out.(*os.File)` succeeds on `Writer.osFile` only, and `file.Fd()` is the
descriptor carried by it. -/
def NewDockerCli (IsTerminal : Nat → Bool) («in» : Option ReadCloser) (out err : Option Writer)
    (proto addr : GoString) (tlsConfig : Option TLSConfig) : DockerCli :=
  let isTerminal := false
  let terminalFd := 0
  let scheme := ascii "http"
  let scheme := if tlsConfig ≠ none then ascii "https" else scheme
  let probe : Nat × Bool :=
    if «in» ≠ none then
      match out with
      | some (.osFile fd) => (fd, IsTerminal fd)
      | _ => (terminalFd, isTerminal)
    else (terminalFd, isTerminal)
  let terminalFd := probe.1
  let isTerminal := probe.2
  let err := if err = none then out else err
  { proto := proto
    addr := addr
    «in» := «in»
    out := out
    err := err
    isTerminal := isTerminal
    terminalFd := terminalFd
    tlsConfig := tlsConfig
    scheme := scheme
    configFile := none }

/-! ## The command names of the specification -/

/-- The supported subcommand of each handler, as the specification lists them. -/
def commandName : Method → String
  | .Attach => "attach" | .Build => "build" | .Commit => "commit" | .Cp => "cp"
  | .Diff => "diff" | .Events => "events" | .Export => "export" | .Help => "help"
  | .History => "history" | .Images => "images" | .Import => "import" | .Info => "info"
  | .Inspect => "inspect" | .Kill => "kill" | .Load => "load" | .Login => "login"
  | .Logout => "logout" | .Logs => "logs" | .Pause => "pause" | .Port => "port"
  | .Ps => "ps" | .Pull => "pull" | .Push => "push" | .Restart => "restart"
  | .Rm => "rm" | .Rmi => "rmi" | .Run => "run" | .Save => "save" | .Search => "search"
  | .Start => "start" | .Stop => "stop" | .Tag => "tag" | .Top => "top"
  | .Unpause => "unpause" | .Version => "version" | .Wait => "wait"

/-- The 36 supported names, in the order of the specification. -/
def supportedNames : List String :=
  ["attach", "build", "commit", "cp", "diff", "events", "export", "help", "history", "images",
   "import", "info", "inspect", "kill", "load", "login", "logout", "logs", "pause", "port", "ps",
   "pull", "push", "restart", "rm", "rmi", "run", "save", "search", "start", "stop", "tag", "top",
   "unpause", "version", "wait"]

/-- The upper-case form of a lower-case ASCII letter. -/
def upperLetter (c : Byte) : Byte := toByte (c.val - 32)

/-- Whether `token` is a casing variant of the lower-case `name`: the same
letters in the same order, each one independently in upper or in lower case. -/
def isCaseVariant : GoString → GoString → Bool
  | [], [] => true
  | c :: name, d :: token => (decide (d = c) || decide (d = upperLetter c)) && isCaseVariant name token
  | _, _ => false

/-- Whether `strings.ToLower` takes `token` to the lower-case `name`, letter by
letter: each letter of `name` stands in `token` in lower or in upper case, and
an `i` may also stand as U+0130 (bytes C4 B0), a `k` as U+212A (bytes E2 84 AA). -/
def lowersTo : GoString → GoString → Bool
  | [], token => decide (token = [])
  | c :: name, token =>
    match token with
    | [] => false
    | d :: rest =>
      ((decide (d = c) || decide (d = upperLetter c)) && lowersTo name rest)
      || (decide (c = 0x69) && decide (d = 0xC4) &&
            match rest with
            | e :: rest1 => decide (e = 0xB0) && lowersTo name rest1
            | [] => false)
      || (decide (c = 0x6B) && decide (d = 0xE2) &&
            match rest with
            | e :: f :: rest2 => decide (e = 0x84) && decide (f = 0xAA) && lowersTo name rest2
            | _ => false)

/-- Whether `getMethod` resolves `token` to the handler of the lower-case
`name`: the first byte is the first letter of `name` in either case, and
`strings.ToLower` takes the rest to the rest of `name`. -/
def resolvesTo : GoString → GoString → Bool
  | c :: name, d :: token => (decide (d = c) || decide (d = upperLetter c)) && lowersTo name token
  | _, _ => false

/-- The canonical lookup key of a handler: `"Cmd"` followed by its command name
with the first letter in upper case. -/
def canonicalKey (m : Method) : GoString :=
  match ascii (commandName m) with
  | [] => ascii "Cmd"
  | c :: rest => ascii "Cmd" ++ upperLetter c :: rest

/-- Handlers that only record their call: each appends its name and its
arguments to the extra state and returns `nil`. -/
def recordingHandlers : Handlers (List (Method × List GoString)) :=
  fun m args s => (none, { s with ext := s.ext ++ [(m, args)] })

/-- A context as `NewDockerCli` builds it for a plain TCP connection without
streams. -/
def plainCli : DockerCli :=
  { proto := ascii "tcp", addr := ascii "127.0.0.1:4243", configFile := none, «in» := none,
    out := none, err := none, isTerminal := false, terminalFd := 0, tlsConfig := none,
    scheme := ascii "http" }

/-- A state in which nothing has been written and no handler has been called. -/
def freshState : State (List (Method × List GoString)) :=
  { cli := plainCli, writes := [], ext := [] }

/-! ## Usage text and configuration loading -/

/-- How a call ends: it returns a value, it panics, or it ends the process with
`os.Exit`. -/
inductive Completion (α : Type) where
  | returned (value : α)
  | panicked
  | exited (status : Nat)
  deriving DecidableEq, Repr

/-- Go's `fmt.Fprintf` once the text is formatted: one write of the text to the
writer.  On a `nil` writer the call of its `Write` method panics, which is
`none`. -/
def Fprintf {σ : Type} (w : Option Writer) (text : GoString) (s : State σ) : Option (State σ) :=
  match w with
  | none => none
  | some dest => some { s with writes := s.writes ++ [(dest, text)] }

/-- Modelled from the spec: a flag registered on a flag set of `pkg/mflag`, of
which the specification only says whether it is deprecated. -/
structure Flag where
  name : GoString
  deprecated : Bool
  deriving DecidableEq, Repr

/-- The function value that `Subcmd` stores in `flags.Usage`: a closure over
`name`, `signature` and `description` (the receiver `cli` is in the state, the
flag set is passed when the closure is called). -/
structure UsageClosure where
  name : GoString
  signature : GoString
  description : GoString
  deriving DecidableEq, Repr

/-- Modelled from the spec: the `FlagSet` of `pkg/mflag`, as far as `Subcmd`
uses it: its name, the flags registered on it, and its `Usage` field (`none`
is the `nil` it is created with). -/
structure FlagSet where
  name : GoString
  formal : List Flag
  Usage : Option UsageClosure
  deriving DecidableEq, Repr

/-- Modelled from the spec: `flag.NewFlagSet(name, flag.ContinueOnError)`, a
flag set with no flags. -/
def NewFlagSet (name : GoString) : FlagSet :=
  { name := name, formal := [], Usage := none }

/-- Modelled from the spec: the registration of one more flag on a flag set. -/
def FlagSet.define (flags : FlagSet) (f : Flag) : FlagSet :=
  { flags with formal := flags.formal ++ [f] }

/-- The registration of several flags, one after the other. -/
def FlagSet.defineAll (flags : FlagSet) (fs : List Flag) : FlagSet :=
  fs.foldl FlagSet.define flags

/-- Modelled from the spec: `FlagCountUndeprecated`, the number of registered
flags that are not deprecated. -/
def FlagSet.FlagCountUndeprecated (flags : FlagSet) : Nat :=
  (flags.formal.filter fun f => !f.deprecated).length

/-- The method `Subcmd`: a new flag set whose `Usage` is the closure of the
source. -/
def Subcmd (name signature description : GoString) : FlagSet :=
  let flags := NewFlagSet name
  { flags with Usage := some { name := name, signature := signature, description := description } }

/-- The local variable `options` of the closure. -/
def usageOptions (flags : FlagSet) : GoString :=
  let options := ascii ""
  if flags.FlagCountUndeprecated > 0 then ascii "[OPTIONS] " else options

/-- The usage line: the part `Usage: docker %s %s%s` of the format, filled in. -/
def usageLine (name options signature : GoString) : GoString :=
  ascii "Usage: docker " ++ name ++ ascii " " ++ options ++ signature

/-- The format `"\nUsage: docker %s %s%s\n\n%s\n\n"` filled in with `name`,
`options`, `signature` and `description`. -/
def usageText (name options signature description : GoString) : GoString :=
  ascii "\n" ++ usageLine name options signature ++ ascii "\n\n" ++ description ++ ascii "\n\n"

/-- A call of the closure that `Subcmd` stores in `flags.Usage`.
`flags.PrintDefaults`, whose body is outside this file, is the parameter
`PrintDefaults`.  The closure never returns: it ends in `os.Exit(2)`, or in the
panic of `fmt.Fprintf` on a `nil` error stream. -/
def UsageClosure.call {σ : Type} (PrintDefaults : FlagSet → State σ → State σ)
    (u : UsageClosure) (flags : FlagSet) (s : State σ) : Completion Unit × State σ :=
  let options := usageOptions flags
  match Fprintf s.cli.err (usageText u.name options u.signature u.description) s with
  | none => (.panicked, s)
  | some s1 =>
    let s2 := PrintDefaults flags s1
    (.exited 2, s2)

/-- What `LoadConfigFile` takes from outside this file: `os.Getenv` and
`registry.LoadConfig`, both of which read the world the process runs in. -/
structure Loader (σ : Type) where
  Getenv : σ → GoString → GoString
  LoadConfig : σ → GoString → Option ConfigFile × Option GoError

/-- The method `LoadConfigFile`: how the call ends and the state it leaves.  The
assignment to `cli.configFile` comes first, so it is in the state also when
`fmt.Fprintf` panics on a `nil` error stream. -/
def LoadConfigFile {σ : Type} (env : Loader σ) (s : State σ) :
    Completion (Option GoError) × State σ :=
  let loaded := env.LoadConfig s.ext (env.Getenv s.ext (ascii "HOME"))
  let s1 : State σ := { s with cli := { s.cli with configFile := loaded.1 } }
  let err := loaded.2
  match err with
  | some e =>
    match Fprintf s1.cli.err (ascii "WARNING: " ++ e.msg ++ ascii "\n") s1 with
    | none => (.panicked, s1)
    | some s2 => (.returned err, s2)
  | none => (.returned err, s1)

/-- Handlers that cannot read what has been written: the result of a handler
and what it does to the context and to the rest of the state do not depend on
the writes made before the call, and the handler only adds writes of its own. -/
def WriteOnly {σ : Type} (handlers : Handlers σ) : Prop :=
  ∀ (m : Method) (args : List GoString) (s : State σ),
    handlers m args s =
      ((handlers m args { s with writes := [] }).1,
        { (handlers m args { s with writes := [] }).2 with
          writes := s.writes ++ (handlers m args { s with writes := [] }).2.writes })

/-- A loader that finds no usable file: it returns an empty configuration
together with an error. -/
def failingLoader : Loader (List (Method × List GoString)) :=
  { Getenv := fun _ _ => ascii "/root"
    LoadConfig := fun _ _ => (some ⟨1⟩, some ⟨ascii "open /root/.dockercfg: permission denied"⟩) }

/-- A context built by `NewDockerCli` with the given output and error streams. -/
def cliWith (out err : Option Writer) : DockerCli :=
  NewDockerCli (fun _ => false) none out err (ascii "unix") (ascii "/var/run/docker.sock") none

/-- A state around the context `cliWith out err` in which nothing has been
written and no handler has been called. -/
def stateWith (out err : Option Writer) : State (List (Method × List GoString)) :=
  { cli := cliWith out err, writes := [], ext := [] }

/-- The variable `os.Stderr`, the file of descriptor 2. -/
def osStderr : Writer := .osFile 2

/-- A state whose context writes errors to `os.Stderr` and has a registry
configuration cached from an earlier load. -/
def cachedState : State (List (Method × List GoString)) :=
  { cli := { cliWith (some osStdout) (some osStderr) with configFile := some ⟨0⟩ }
    writes := []
    ext := [] }

/-- A loader that finds and reads the configuration file. -/
def workingLoader : Loader (List (Method × List GoString)) :=
  { Getenv := fun _ _ => ascii "/root"
    LoadConfig := fun _ _ => (some ⟨2⟩, none) }

/-- A call `flags.Usage()` of the function stored in the `Usage` field of a
flag set; `none` when the field is nil, where `pkg/mflag` falls back on a
default usage whose body is outside this file. -/
def FlagSet.callUsage {σ : Type} (PrintDefaults : FlagSet → State σ → State σ)
    (flags : FlagSet) (s : State σ) : Option (Completion Unit × State σ) :=
  match flags.Usage with
  | none => none
  | some u => some (u.call PrintDefaults flags s)

/-- Handlers that look at how much has been written before they are called, as
a handler can that asks for the offset of a redirected `os.Stdout`: each
returns an error when something has been written already, and `nil` when
nothing has. -/
def observingHandlers : Handlers (List (Method × List GoString)) :=
  fun m args s =>
    (if s.writes.length = 0 then none else some ⟨ascii "output already started"⟩,
      { s with ext := s.ext ++ [(m, args)] })

end Client

namespace Client

/-! ## The Go library -/

theorem isCont_iff (c : Nat) : isCont c = true ↔ 0x80 ≤ c ∧ c < 0xC0 := by
  simp [isCont]

/-- The ways `DecodeRuneInString` can come out on a non-empty string. -/
theorem decode_cases (c0 : Byte) (rest : GoString) :
    (c0.val < 0x80 ∧ DecodeRuneInString (c0 :: rest) = (c0.val, 1))
    ∨ (0x80 ≤ c0.val ∧ DecodeRuneInString (c0 :: rest) = (RuneError, 1))
    ∨ (∃ c1 rest1, rest = c1 :: rest1 ∧ 0xC0 ≤ c0.val ∧ c0.val < 0xE0 ∧ 0x80 ≤ c1.val ∧ c1.val < 0xC0
        ∧ 0x7F < c0.val % 32 * 64 + c1.val % 64
        ∧ DecodeRuneInString (c0 :: rest) = (c0.val % 32 * 64 + c1.val % 64, 2))
    ∨ (∃ c1 c2 rest2, rest = c1 :: c2 :: rest2 ∧ 0xE0 ≤ c0.val ∧ c0.val < 0xF0
        ∧ 0x80 ≤ c1.val ∧ c1.val < 0xC0 ∧ 0x80 ≤ c2.val ∧ c2.val < 0xC0
        ∧ 0x7FF < c0.val % 16 * 4096 + c1.val % 64 * 64 + c2.val % 64
        ∧ DecodeRuneInString (c0 :: rest)
            = (c0.val % 16 * 4096 + c1.val % 64 * 64 + c2.val % 64, 3))
    ∨ (∃ c1 c2 c3 rest3, rest = c1 :: c2 :: c3 :: rest3 ∧ 0xF0 ≤ c0.val
        ∧ 0xFFFF < c0.val % 8 * 262144 + c1.val % 64 * 4096 + c2.val % 64 * 64 + c3.val % 64
        ∧ DecodeRuneInString (c0 :: rest)
            = (c0.val % 8 * 262144 + c1.val % 64 * 4096 + c2.val % 64 * 64 + c3.val % 64, 4)) := by
  by_cases h0 : c0.val < 0x80
  · left; exact ⟨h0, by simp [DecodeRuneInString, h0]⟩
  right
  have h0' : 0x80 ≤ c0.val := by omega
  by_cases h1 : c0.val < 0xC0
  · left; exact ⟨h0', by simp [DecodeRuneInString, h0, h1]⟩
  cases rest with
  | nil => left; exact ⟨h0', by simp [DecodeRuneInString, h0, h1]⟩
  | cons c1 rest1 =>
    by_cases hc1 : isCont c1.val = true
    swap
    · left; exact ⟨h0', by simp [DecodeRuneInString, h0, h1, hc1]⟩
    have hc1' := (isCont_iff _).1 hc1
    by_cases h2 : c0.val < 0xE0
    · by_cases hr : c0.val % 32 * 64 + c1.val % 64 ≤ 0x7F
      · left; exact ⟨h0', by simp [DecodeRuneInString, h0, h1, hc1, h2, hr]⟩
      · right; left
        exact ⟨c1, rest1, rfl, by omega, h2, hc1'.1, hc1'.2, by omega,
          by simp [DecodeRuneInString, h0, h1, hc1, h2, hr]⟩
    cases rest1 with
    | nil => left; exact ⟨h0', by simp [DecodeRuneInString, h0, h1, hc1, h2]⟩
    | cons c2 rest2 =>
      by_cases hc2 : isCont c2.val = true
      swap
      · left; exact ⟨h0', by simp [DecodeRuneInString, h0, h1, hc1, h2, hc2]⟩
      by_cases h3 : c0.val < 0xF0
      · by_cases hr : c0.val % 16 * 4096 + c1.val % 64 * 64 + c2.val % 64 ≤ 0x7FF
        · left; exact ⟨h0', by simp [DecodeRuneInString, h0, h1, hc1, h2, hc2, h3, hr]⟩
        by_cases hs : 0xD800 ≤ c0.val % 16 * 4096 + c1.val % 64 * 64 + c2.val % 64
            ∧ c0.val % 16 * 4096 + c1.val % 64 * 64 + c2.val % 64 ≤ 0xDFFF
        · left; exact ⟨h0', by simp [DecodeRuneInString, h0, h1, hc1, h2, hc2, h3, hr, hs]⟩
        · right; right; left
          have hc2' := (isCont_iff _).1 hc2
          exact ⟨c1, c2, rest2, rfl, by omega, h3, hc1'.1, hc1'.2, hc2'.1, hc2'.2, by omega,
            by simp [DecodeRuneInString, h0, h1, hc1, h2, hc2, h3, hr, hs]⟩
      cases rest2 with
      | nil => left; exact ⟨h0', by simp [DecodeRuneInString, h0, h1, hc1, h2, hc2, h3]⟩
      | cons c3 rest3 =>
        by_cases hc3 : isCont c3.val = true
        swap
        · left; exact ⟨h0', by simp [DecodeRuneInString, h0, h1, hc1, h2, hc2, h3, hc3]⟩
        by_cases h4 : c0.val < 0xF8
        swap
        · left; exact ⟨h0', by simp [DecodeRuneInString, h0, h1, hc1, h2, hc2, h3, hc3, h4]⟩
        by_cases hr : c0.val % 8 * 262144 + c1.val % 64 * 4096 + c2.val % 64 * 64 + c3.val % 64
              ≤ 0xFFFF
            ∨ MaxRune < c0.val % 8 * 262144 + c1.val % 64 * 4096 + c2.val % 64 * 64 + c3.val % 64
        · left; exact ⟨h0', by simp [DecodeRuneInString, h0, h1, hc1, h2, hc2, h3, hc3, h4, hr]⟩
        · right; right; right
          exact ⟨c1, c2, c3, rest3, rfl, by omega, by omega,
            by simp [DecodeRuneInString, h0, h1, hc1, h2, hc2, h3, hc3, h4, hr]⟩


theorem encodeRune_ascii (r : Nat) (h : r ≤ 0x7F) : EncodeRune r = [toByte r] := by
  simp [EncodeRune, h]

theorem toByte_val_of_lt (n : Nat) (h : n < 256) : (toByte n).val = n := by
  simp [toByte, Nat.mod_eq_of_lt h]

/-- Above U+007F the encoding starts with a byte that is not ASCII. -/
theorem encodeRune_head (r : Nat) (h : 0x7F < r) :
    ∃ b tl, EncodeRune r = b :: tl ∧ 0x80 ≤ b.val := by
  unfold EncodeRune
  rw [if_neg (by omega)]
  by_cases h2 : r ≤ 0x7FF
  · rw [if_pos h2]
    refine ⟨_, _, rfl, ?_⟩
    rw [toByte_val_of_lt _ (by omega)]; omega
  rw [if_neg h2]
  by_cases h3 : MaxRune < r ∨ (0xD800 ≤ r ∧ r ≤ 0xDFFF)
  · rw [if_pos h3]
    exact ⟨0xEF, _, rfl, by decide⟩
  rw [if_neg h3]
  have hm : r ≤ 0x10FFFF := by
    have := not_or.1 h3
    simp only [MaxRune] at this
    omega
  by_cases h4 : r ≤ 0xFFFF
  · rw [if_pos h4]
    refine ⟨_, _, rfl, ?_⟩
    rw [toByte_val_of_lt _ (by omega)]; omega
  · rw [if_neg h4]
    refine ⟨_, _, rfl, ?_⟩
    rw [toByte_val_of_lt _ (by omega)]; omega

/-- The runes that `unicode.ToLower` takes to a given lower-case ASCII letter. -/
theorem unicodeToLower_eq_letter (r c : Nat) (hc : 0x61 ≤ c ∧ c ≤ 0x7A) :
    unicodeToLower r = c
      ↔ r = c ∨ r + 32 = c ∨ (r = 0x130 ∧ c = 0x69) ∨ (r = 0x212A ∧ c = 0x6B) := by
  unfold unicodeToLower
  split_ifs <;> omega

/-- A rune that `unicode.ToLower` takes into ASCII. -/
theorem unicodeToLower_ascii (r : Nat) (h : unicodeToLower r ≤ 0x7F) :
    r ≤ 0x7F ∨ r = 0x130 ∨ r = 0x212A := by
  unfold unicodeToLower at h
  split_ifs at h <;> omega

theorem unicodeToLower_le (r : Nat) (h : r ≤ 0x7F) : unicodeToLower r ≤ 0x7F := by
  unfold unicodeToLower
  split_ifs <;> omega


theorem byte_eq_iff (a b : Byte) : a = b ↔ a.val = b.val := Fin.ext_iff

theorem upperLetter_val (c : Byte) (hc : 0x61 ≤ c.val ∧ c.val ≤ 0x7A) :
    (upperLetter c).val = c.val - 32 := by
  have := c.isLt
  simp only [upperLetter]
  exact toByte_val_of_lt _ (by omega)

theorem decode_dotted_I (rest : GoString) :
    DecodeRuneInString (0xC4 :: 0xB0 :: rest) = (0x130, 2) := rfl

theorem decode_kelvin (rest : GoString) :
    DecodeRuneInString (0xE2 :: 0x84 :: 0xAA :: rest) = (0x212A, 3) := rfl

/-- One iteration of `strings.ToLower` that produces the lower-case letter `c`:
what the string began with and how many bytes were consumed. -/
theorem lower_step (c d : Byte) (rest x y : GoString) (hc : 0x61 ≤ c.val ∧ c.val ≤ 0x7A)
    (h : EncodeRune (unicodeToLower (DecodeRuneInString (d :: rest)).1) ++ x = c :: y) :
    x = y ∧
      (((d = c ∨ d = upperLetter c) ∧ (DecodeRuneInString (d :: rest)).2 = 1)
      ∨ (c = 0x69 ∧ d = 0xC4 ∧ ∃ rest1, rest = 0xB0 :: rest1
          ∧ (DecodeRuneInString (d :: rest)).2 = 2)
      ∨ (c = 0x6B ∧ d = 0xE2 ∧ ∃ rest2, rest = 0x84 :: 0xAA :: rest2
          ∧ (DecodeRuneInString (d :: rest)).2 = 3)) := by
  have hcl := c.isLt
  have hdl := d.isLt
  by_cases hr : unicodeToLower (DecodeRuneInString (d :: rest)).1 ≤ 0x7F
  swap
  · have hgt : 0x7F < unicodeToLower (DecodeRuneInString (d :: rest)).1 := by omega
    obtain ⟨b, tl, hb, hb80⟩ := encodeRune_head _ hgt
    rw [hb] at h
    have : b = c := by
      have := List.cons.inj h
      exact this.1
    rw [this] at hb80
    omega
  rw [encodeRune_ascii _ hr] at h
  have hh := List.cons.inj h
  refine ⟨by simpa using hh.2, ?_⟩
  have hval : unicodeToLower (DecodeRuneInString (d :: rest)).1 = c.val := by
    have := congrArg Fin.val hh.1
    rwa [toByte_val_of_lt _ (by omega)] at this
  have hu := upperLetter_val c hc
  rw [unicodeToLower_eq_letter _ _ hc] at hval
  rcases decode_cases d rest with ⟨h0, hD⟩ | ⟨h0, hD⟩ | ⟨c1, rest1, rfl, h0, h0', h1, h1', hgt, hD⟩
      | ⟨c1, c2, rest2, rfl, h0, h0', h1, h1', h2, h2', hgt, hD⟩
      | ⟨c1, c2, c3, rest3, rfl, h0, hgt, hD⟩
  · rw [hD] at hval ⊢
    left
    refine ⟨?_, rfl⟩
    simp only [byte_eq_iff, hu]
    simp only at hval
    omega
  · rw [hD] at hval
    simp only [RuneError] at hval
    omega
  · rw [hD] at hval ⊢
    simp only at hval
    have hc1l := c1.isLt
    right; left
    have h130 : d.val % 32 * 64 + c1.val % 64 = 0x130 ∧ c.val = 0x69 := by omega
    refine ⟨?_, ?_, rest1, ?_, rfl⟩
    · rw [byte_eq_iff]; exact h130.2
    · rw [byte_eq_iff]; show d.val = 0xC4; omega
    · have : c1 = 0xB0 := by rw [byte_eq_iff]; show c1.val = 0xB0; omega
      rw [this]
  · rw [hD] at hval ⊢
    simp only at hval
    have hc1l := c1.isLt
    have hc2l := c2.isLt
    right; right
    have hk : d.val % 16 * 4096 + c1.val % 64 * 64 + c2.val % 64 = 0x212A ∧ c.val = 0x6B := by
      omega
    refine ⟨?_, ?_, rest2, ?_, rfl⟩
    · rw [byte_eq_iff]; exact hk.2
    · rw [byte_eq_iff]; show d.val = 0xE2; omega
    · have e1 : c1 = 0x84 := by rw [byte_eq_iff]; show c1.val = 0x84; omega
      have e2 : c2 = 0xAA := by rw [byte_eq_iff]; show c2.val = 0xAA; omega
      rw [e1, e2]
  · rw [hD] at hval
    simp only at hval
    omega

/-- An ASCII letter in either case is lowered to the lower-case letter in one
iteration that consumes one byte. -/
theorem lower_step_letter (c d : Byte) (rest : GoString) (hc : 0x61 ≤ c.val ∧ c.val ≤ 0x7A)
    (hd : d = c ∨ d = upperLetter c) :
    EncodeRune (unicodeToLower (DecodeRuneInString (d :: rest)).1) = [c]
      ∧ (DecodeRuneInString (d :: rest)).2 = 1 := by
  have hcl := c.isLt
  have hu := upperLetter_val c hc
  have hdv : d.val = c.val ∨ d.val + 32 = c.val := by
    rcases hd with rfl | rfl
    · left; rfl
    · right; omega
  have hlt : d.val < 0x80 := by omega
  have hD : DecodeRuneInString (d :: rest) = (d.val, 1) := by
    simp [DecodeRuneInString, hlt]
  rw [hD]
  refine ⟨?_, rfl⟩
  have hl : unicodeToLower d.val = c.val :=
    (unicodeToLower_eq_letter _ _ hc).2 (by omega)
  simp only
  rw [hl, encodeRune_ascii _ (by omega)]
  congr 1
  rw [byte_eq_iff, toByte_val_of_lt _ hcl]


theorem mapLoop_succ_cons (mapping : Nat → Nat) (fuel : Nat) (c : Byte) (rest : GoString) :
    mapLoop mapping (fuel + 1) (c :: rest)
      = EncodeRune (mapping (DecodeRuneInString (c :: rest)).1)
          ++ mapLoop mapping fuel ((c :: rest).drop (DecodeRuneInString (c :: rest)).2) := rfl

theorem encodeRune_ne_nil (r : Nat) : EncodeRune r ≠ [] := by
  unfold EncodeRune
  split_ifs <;> simp

/-- The three ways the first letter of the name can stand at the head of the token. -/
theorem lowersTo_cons_cons (c d : Byte) (name rest : GoString) :
    lowersTo (c :: name) (d :: rest) = true
      ↔ ((d = c ∨ d = upperLetter c) ∧ lowersTo name rest = true)
        ∨ (c = 0x69 ∧ d = 0xC4 ∧ ∃ rest1, rest = 0xB0 :: rest1 ∧ lowersTo name rest1 = true)
        ∨ (c = 0x6B ∧ d = 0xE2
            ∧ ∃ rest2, rest = 0x84 :: 0xAA :: rest2 ∧ lowersTo name rest2 = true) := by
  cases rest with
  | nil => simp [lowersTo]
  | cons e rest1 =>
    cases rest1 with
    | nil =>
      simp only [lowersTo, Bool.or_eq_true, Bool.and_eq_true, decide_eq_true_eq, Bool.or_false,
        Bool.and_false, List.cons.injEq]
      constructor
      · rintro (h | ⟨⟨h1, h2⟩, h3, h4⟩)
        · exact Or.inl h
        · exact Or.inr (Or.inl ⟨h1, h2, [], ⟨h3, rfl⟩, h4⟩)
      · rintro (h | ⟨h1, h2, r, ⟨h3, rfl⟩, h4⟩ | ⟨_, _, r, ⟨_, h⟩, _⟩)
        · exact Or.inl h
        · exact Or.inr ⟨⟨h1, h2⟩, h3, h4⟩
        · exact absurd h (by simp)
    | cons f rest2 =>
      simp only [lowersTo, Bool.or_eq_true, Bool.and_eq_true, decide_eq_true_eq,
        List.cons.injEq]
      constructor
      · rintro ((h | ⟨⟨h1, h2⟩, h3, h4⟩) | ⟨⟨h1, h2⟩, ⟨h3, h4⟩, h5⟩)
        · exact Or.inl h
        · exact Or.inr (Or.inl ⟨h1, h2, _, ⟨h3, rfl⟩, h4⟩)
        · exact Or.inr (Or.inr ⟨h1, h2, _, ⟨h3, h4, rfl⟩, h5⟩)
      · rintro (h | ⟨h1, h2, r, ⟨h3, rfl⟩, h4⟩ | ⟨h1, h2, r, ⟨h3, h4, rfl⟩, h5⟩)
        · exact Or.inl (Or.inl h)
        · exact Or.inl (Or.inr ⟨⟨h1, h2⟩, h3, h4⟩)
        · exact Or.inr ⟨⟨h1, h2⟩, ⟨h3, h4⟩, h5⟩

/-- `strings.ToLower` yields the lower-case `name` exactly on the tokens that
`lowersTo` accepts. -/
theorem mapLoop_lower_iff : ∀ (n : Nat) (name token : GoString),
    (∀ c ∈ name, 0x61 ≤ c.val ∧ c.val ≤ 0x7A) → token.length ≤ n →
    (mapLoop unicodeToLower n token = name ↔ lowersTo name token = true) := by
  intro n
  induction n with
  | zero =>
    intro name token _ hl
    have : token = [] := List.length_eq_zero.1 (by omega)
    subst this
    cases name <;> simp [mapLoop, lowersTo]
  | succ n ih =>
    intro name token hn hl
    cases token with
    | nil => cases name <;> simp [mapLoop, lowersTo]
    | cons d rest =>
      have hl' : rest.length ≤ n := by simpa using hl
      rw [mapLoop_succ_cons]
      cases name with
      | nil =>
        have hne := encodeRune_ne_nil (unicodeToLower (DecodeRuneInString (d :: rest)).1)
        simp [lowersTo, hne]
      | cons c name1 =>
        have hc := hn c (List.mem_cons_self _ _)
        have hn1 : ∀ c ∈ name1, 0x61 ≤ c.val ∧ c.val ≤ 0x7A :=
          fun x hx => hn x (List.mem_cons_of_mem _ hx)
        rw [lowersTo_cons_cons]
        constructor
        · intro h
          obtain ⟨hxy, hcase⟩ := lower_step c d rest _ _ hc h
          rcases hcase with ⟨hd, hw⟩ | ⟨hci, hd, rest1, hrest, hw⟩ | ⟨hck, hd, rest2, hrest, hw⟩
          · rw [hw] at hxy
            exact Or.inl ⟨hd, (ih name1 rest hn1 hl').1 hxy⟩
          · rw [hw, hrest] at hxy
            have hl1 : rest1.length ≤ n := by rw [hrest] at hl'; simp at hl'; omega
            exact Or.inr (Or.inl ⟨hci, hd, rest1, hrest, (ih name1 rest1 hn1 hl1).1 hxy⟩)
          · rw [hw, hrest] at hxy
            have hl2 : rest2.length ≤ n := by rw [hrest] at hl'; simp at hl'; omega
            exact Or.inr (Or.inr ⟨hck, hd, rest2, hrest, (ih name1 rest2 hn1 hl2).1 hxy⟩)
        · intro h
          rcases h with ⟨hd, ht⟩ | ⟨hci, hd, rest1, hrest, ht⟩ | ⟨hck, hd, rest2, hrest, ht⟩
          · obtain ⟨he, hw⟩ := lower_step_letter c d rest hc hd
            rw [he, hw]
            have := (ih name1 rest hn1 hl').2 ht
            simpa using this
          · subst hci hd hrest
            have hl1 : rest1.length ≤ n := by simp at hl'; omega
            rw [decode_dotted_I]
            have := (ih name1 rest1 hn1 hl1).2 ht
            simpa [unicodeToLower, EncodeRune, toByte] using this
          · subst hck hd hrest
            have hl2 : rest2.length ≤ n := by simp at hl'; omega
            rw [decode_kelvin]
            have := (ih name1 rest2 hn1 hl2).2 ht
            simpa [unicodeToLower, EncodeRune, toByte] using this

/-- The same, for `strings.ToLower` itself. -/
theorem stringsToLower_eq_iff (name token : GoString)
    (hn : ∀ c ∈ name, 0x61 ≤ c.val ∧ c.val ≤ 0x7A) :
    stringsToLower token = name ↔ lowersTo name token = true :=
  mapLoop_lower_iff token.length name token hn (Nat.le_refl _)


/-! ## The method table -/

/-- The `switch` never yields a `nil` function together with `true`. -/
theorem switchOn_found (tag : GoString) (clauses : List (GoString × Method))
    (f : Option Method) (h : switchOn tag clauses = (f, true)) : ∃ m, f = some m := by
  induction clauses with
  | nil => simp [switchOn] at h
  | cons c cs ih =>
    obtain ⟨label, m⟩ := c
    unfold switchOn at h
    split at h
    · exact ⟨m, by simpa using (congrArg Prod.fst h).symm⟩
    · exact ih h

/-- The value of `getMethod` on a non-empty name: neither slice is out of range. -/
theorem getMethod_cons (c : Byte) (rest : GoString) :
    getMethod (c :: rest)
      = some (switchOn (ascii "Cmd" ++ stringsToUpper [c] ++ stringsToLower rest) switchCases) := by
  simp [getMethod, sliceTo, sliceFrom]

/-- A `true` from `getMethod` comes with a handler. -/
theorem getMethod_found (name : GoString) (f : Option Method)
    (h : getMethod name = some (f, true)) : ∃ m, f = some m := by
  cases name with
  | nil => simp [getMethod] at h
  | cons c rest =>
    rw [getMethod_cons] at h
    exact switchOn_found _ _ f (Option.some.inj h)

theorem decode_single (d : Byte) :
    DecodeRuneInString [d] = if d.val < 0x80 then (d.val, 1) else (RuneError, 1) := by
  by_cases h0 : d.val < 0x80
  · simp [DecodeRuneInString, h0]
  · by_cases h1 : d.val < 0xC0 <;> simp [DecodeRuneInString, h0, h1]

/-- The first byte of the token in upper case: `strings.ToUpper` on the
one-byte string `name[:1]` yields the upper-case letter exactly on that letter
in either case. -/
theorem upper_first (k d : Byte) (x y : GoString) (hk : 0x61 ≤ k.val ∧ k.val ≤ 0x7A) :
    stringsToUpper [d] ++ x = upperLetter k :: y ↔ (d = k ∨ d = upperLetter k) ∧ x = y := by
  have hkl := k.isLt
  have hdl := d.isLt
  have hu := upperLetter_val k hk
  have hS : stringsToUpper [d] = EncodeRune (unicodeToUpper (DecodeRuneInString [d]).1) := by
    show mapLoop unicodeToUpper 1 [d] = _
    rw [mapLoop_succ_cons]
    simp [mapLoop]
  rw [hS, decode_single]
  by_cases h0 : d.val < 0x80
  · rw [if_pos h0]
    have hle : unicodeToUpper d.val ≤ 0x7F := by
      unfold unicodeToUpper; split_ifs <;> omega
    rw [encodeRune_ascii _ hle]
    simp only [List.singleton_append, List.cons.injEq, byte_eq_iff, hu,
      toByte_val_of_lt _ (show unicodeToUpper d.val < 256 by omega)]
    have : unicodeToUpper d.val = k.val - 32 ↔ (d.val = k.val ∨ d.val = k.val - 32) := by
      unfold unicodeToUpper; split_ifs <;> omega
    rw [this]
  · rw [if_neg h0]
    have hE : EncodeRune (unicodeToUpper RuneError) = [0xEF, 0xBF, 0xBD] := by decide
    rw [hE]
    simp only [List.cons_append, List.cons.injEq, byte_eq_iff, hu]
    constructor
    · rintro ⟨h, _⟩
      have : ((0xEF : Byte).val) = 0xEF := rfl
      omega
    · rintro ⟨h | h, _⟩ <;> omega

/-- A clause of the `switch` that is taken is a clause of the `switch`. -/
theorem switchOn_mem (tag : GoString) (clauses : List (GoString × Method)) (m : Method)
    (h : switchOn tag clauses = (some m, true)) : (tag, m) ∈ clauses := by
  induction clauses with
  | nil => simp [switchOn] at h
  | cons c cs ih =>
    obtain ⟨label, m1⟩ := c
    unfold switchOn at h
    split at h
    · rename_i heq
      have : m1 = m := by simpa using congrArg Prod.fst h
      rw [heq, this]
      exact List.mem_cons_self _ _
    · exact List.mem_cons_of_mem _ (ih h)

/-- The `switch` yields a handler with `true`, or no handler with `false`. -/
theorem switchOn_cases (tag : GoString) (clauses : List (GoString × Method)) :
    (∃ m, switchOn tag clauses = (some m, true)) ∨ switchOn tag clauses = (none, false) := by
  induction clauses with
  | nil => right; rfl
  | cons c cs ih =>
    obtain ⟨label, m1⟩ := c
    unfold switchOn
    split
    · exact Or.inl ⟨m1, rfl⟩
    · exact ih

/-- Every label of the `switch` is the canonical key of the handler of its clause. -/
theorem switchCases_keys : ∀ p ∈ switchCases, p.1 = canonicalKey p.2 := by decide

/-- The `switch` on the method table takes a tag to a handler exactly when the
tag is the canonical key of that handler. -/
theorem switchOn_switchCases (tag : GoString) (m : Method) :
    switchOn tag switchCases = (some m, true) ↔ tag = canonicalKey m := by
  constructor
  · intro h
    exact switchCases_keys _ (switchOn_mem tag switchCases m h)
  · rintro rfl
    cases m <;> decide

set_option maxRecDepth 8000 in
/-- Every command name is a non-empty word of lower-case ASCII letters. -/
theorem commandName_letters (m : Method) :
    ∃ k name, ascii (commandName m) = k :: name ∧ (0x61 ≤ k.val ∧ k.val ≤ 0x7A)
      ∧ ∀ c ∈ name, 0x61 ≤ c.val ∧ c.val ≤ 0x7A := by
  have h : ∀ m : Method, ∀ c ∈ ascii (commandName m), 0x61 ≤ c.val ∧ c.val ≤ 0x7A := by
    intro m
    cases m <;> decide
  have hne : ∀ m : Method, ascii (commandName m) ≠ [] := by decide
  cases hm : ascii (commandName m) with
  | nil => exact absurd hm (hne m)
  | cons k name =>
    have := h m
    rw [hm] at this
    exact ⟨k, name, rfl, this k (List.mem_cons_self _ _),
      fun c hc => this c (List.mem_cons_of_mem _ hc)⟩

/-- The tokens that `getMethod` resolves to a given handler. -/
theorem getMethod_eq_some_iff (token : GoString) (m : Method) :
    getMethod token = some (some m, true) ↔ resolvesTo (ascii (commandName m)) token = true := by
  obtain ⟨k, name, hname, hk, hn⟩ := commandName_letters m
  cases token with
  | nil =>
    have h : getMethod [] = some (none, false) := by decide
    rw [h, hname]
    simp [resolvesTo]
  | cons d rest =>
    rw [getMethod_cons, Option.some.injEq, switchOn_switchCases]
    have hkey : canonicalKey m = ascii "Cmd" ++ upperLetter k :: name := by
      simp only [canonicalKey, hname]
    rw [hkey, hname, List.append_assoc, List.append_cancel_left_eq, upper_first k d _ _ hk,
      stringsToLower_eq_iff name rest hn]
    simp [resolvesTo]

/-- The tokens that `getMethod` does not resolve. -/
theorem getMethod_eq_none_iff (token : GoString) :
    getMethod token = some (none, false)
      ↔ ∀ m, resolvesTo (ascii (commandName m)) token = false := by
  constructor
  · intro h m
    by_contra hne
    have hm := (getMethod_eq_some_iff token m).2 (by simpa using hne)
    rw [h] at hm
    simp at hm
  · intro h
    cases token with
    | nil => decide
    | cons d rest =>
      rcases switchOn_cases (ascii "Cmd" ++ stringsToUpper [d] ++ stringsToLower rest)
        switchCases with ⟨m, hm⟩ | hnone
      · have := (getMethod_eq_some_iff (d :: rest) m).1 (by rw [getMethod_cons, hm])
        rw [h m] at this
        simp at this
      · rw [getMethod_cons, hnone]

/-- A casing variant of a name is a token that `strings.ToLower` takes to it. -/
theorem lowersTo_of_isCaseVariant : ∀ (name token : GoString),
    isCaseVariant name token = true → lowersTo name token = true := by
  intro name
  induction name with
  | nil =>
    intro token h
    cases token with
    | nil => rfl
    | cons d rest => simp [isCaseVariant] at h
  | cons c name ih =>
    intro token h
    cases token with
    | nil => simp [isCaseVariant] at h
    | cons d rest =>
      simp only [isCaseVariant, Bool.and_eq_true, Bool.or_eq_true, decide_eq_true_eq] at h
      exact (lowersTo_cons_cons c d name rest).2 (Or.inl ⟨h.1, ih rest h.2⟩)

/-- A casing variant of a non-empty name resolves to the handler of the name. -/
theorem resolvesTo_of_isCaseVariant (c : Byte) (name token : GoString)
    (h : isCaseVariant (c :: name) token = true) : resolvesTo (c :: name) token = true := by
  cases token with
  | nil => simp [isCaseVariant] at h
  | cons d rest =>
    simp only [isCaseVariant, Bool.and_eq_true, Bool.or_eq_true, decide_eq_true_eq] at h
    simp only [resolvesTo, Bool.and_eq_true, Bool.or_eq_true, decide_eq_true_eq]
    exact ⟨h.1, lowersTo_of_isCaseVariant name rest h.2⟩


/-- A name made of letters is a casing variant of itself. -/
theorem isCaseVariant_self : ∀ name : GoString, isCaseVariant name name = true := by
  intro name
  induction name with
  | nil => rfl
  | cons c name ih => simp [isCaseVariant, ih]

/-- On a token of ASCII bytes `strings.ToLower` reaches the name only from its
casing variants. -/
theorem isCaseVariant_of_lowersTo : ∀ (name token : GoString),
    (∀ b ∈ token, b.val < 0x80) → lowersTo name token = true →
    isCaseVariant name token = true := by
  intro name
  induction name with
  | nil =>
    intro token _ h
    cases token with
    | nil => rfl
    | cons d rest => simp [lowersTo] at h
  | cons c name ih =>
    intro token ha h
    cases token with
    | nil => simp [lowersTo] at h
    | cons d rest =>
      have hd : d.val < 0x80 := ha d (List.mem_cons_self _ _)
      have hrest : ∀ b ∈ rest, b.val < 0x80 := fun b hb => ha b (List.mem_cons_of_mem _ hb)
      rcases (lowersTo_cons_cons c d name rest).1 h with ⟨h1, h2⟩ | ⟨_, h1, _⟩ | ⟨_, h1, _⟩
      · simp only [isCaseVariant, Bool.and_eq_true, Bool.or_eq_true, decide_eq_true_eq]
        exact ⟨h1, ih rest hrest h2⟩
      · rw [h1] at hd
        exact absurd hd (by decide)
      · rw [h1] at hd
        exact absurd hd (by decide)

/-- Every supported name of the specification is the command name of a handler. -/
theorem supportedNames_handler : ∀ name ∈ supportedNames, ∃ m, commandName m = name := by
  decide


/-! ## Dispatch -/

/-- C1: when the first token resolves, `Cmd` is exactly one call of the resolved
handler on the remaining tokens, in the state `Cmd` was entered in, and the
result of `Cmd` is that handler's result. -/
theorem Cmd_resolved {σ : Type} (handlers : Handlers σ) (arg0 : GoString)
    (rest : List GoString) (s : State σ) (f : Option Method)
    (h : getMethod arg0 = some (f, true)) :
    ∃ method, f = some method ∧ Cmd handlers (arg0 :: rest) s = some (handlers method rest s) := by
  obtain ⟨m, rfl⟩ := getMethod_found arg0 f h
  exact ⟨m, rfl, by simp [Cmd, index, sliceFrom, h]⟩

/-- C1, on `Cmd("ps", "-a")`: the only call recorded is `CmdPs` with `["-a"]`. -/
theorem Cmd_resolved_witness :
    getMethod (ascii "ps") = some (some .Ps, true) ∧
    ∃ method, some Method.Ps = some method ∧
      Cmd recordingHandlers [ascii "ps", ascii "-a"] freshState
        = some (recordingHandlers method [ascii "-a"] freshState) :=
  ⟨by decide, Cmd_resolved recordingHandlers (ascii "ps") [ascii "-a"] freshState _ (by decide)⟩

/-- C2: when the first token does not resolve, `Cmd` prints one line that
contains the token and then is exactly one call of `CmdHelp` on the remaining
tokens, whose result it returns. -/
theorem Cmd_not_found {σ : Type} (handlers : Handlers σ) (arg0 : GoString)
    (rest : List GoString) (s : State σ) (f : Option Method)
    (h : getMethod arg0 = some (f, false)) :
    Cmd handlers (arg0 :: rest) s
        = some (handlers .Help rest (Println [ascii "Error: Command not found:", arg0] s))
      ∧ (Println [ascii "Error: Command not found:", arg0] s).writes
        = s.writes ++ [(osStdout, ascii "Error: Command not found: " ++ arg0 ++ ascii "\n")]
      ∧ arg0 <:+: ascii "Error: Command not found: " ++ arg0 ++ ascii "\n" := by
  refine ⟨by simp [Cmd, index, sliceFrom, h], ?_, ?_⟩
  · simp [Println, Sprintln, List.intercalate, ascii]
  · exact ⟨ascii "Error: Command not found: ", ascii "\n", by simp⟩

/-- C2, on `Cmd("bogus", "x", "y")`. -/
theorem Cmd_not_found_witness :
    getMethod (ascii "bogus") = some (none, false) ∧
    (Cmd recordingHandlers [ascii "bogus", ascii "x", ascii "y"] freshState
        = some (recordingHandlers .Help [ascii "x", ascii "y"]
            (Println [ascii "Error: Command not found:", ascii "bogus"] freshState))
      ∧ (Println [ascii "Error: Command not found:", ascii "bogus"] freshState).writes
        = freshState.writes
            ++ [(osStdout, ascii "Error: Command not found: " ++ ascii "bogus" ++ ascii "\n")]
      ∧ ascii "bogus" <:+: ascii "Error: Command not found: " ++ ascii "bogus" ++ ascii "\n") :=
  ⟨by decide,
    Cmd_not_found recordingHandlers (ascii "bogus") [ascii "x", ascii "y"] freshState none
      (by decide)⟩

/-- C3: `Cmd()` and `Cmd("help")` are the same single call of `CmdHelp` with no
arguments, in the unchanged entry state (nothing is printed before it). -/
theorem Cmd_empty_eq_help {σ : Type} (handlers : Handlers σ) (s : State σ) :
    Cmd handlers [] s = some (handlers .Help [] s)
      ∧ Cmd handlers [ascii "help"] s = some (handlers .Help [] s)
      ∧ Cmd handlers [] s = Cmd handlers [ascii "help"] s := by
  have h : getMethod (ascii "help") = some (some .Help, true) := by decide
  have h1 : Cmd handlers [] s = some (handlers .Help [] s) := by simp [Cmd]
  have h2 : Cmd handlers [ascii "help"] s = some (handlers .Help [] s) := by
    simp [Cmd, index, sliceFrom, h]
  exact ⟨h1, h2, h1.trans h2.symm⟩

/-! ## Resolution -/

/-- C4: every casing variant of each of the 36 supported names is found, with
the handler of that name, which is the handler found for the name in lower
case. -/
theorem getMethod_case_insensitive (name : String) (token : GoString)
    (hname : name ∈ supportedNames) (h : isCaseVariant (ascii name) token = true) :
    ∃ m, commandName m = name ∧ getMethod token = some (some m, true)
      ∧ getMethod (ascii name) = some (some m, true) := by
  obtain ⟨m, rfl⟩ := supportedNames_handler name hname
  obtain ⟨k, nm, hk, _, _⟩ := commandName_letters m
  refine ⟨m, rfl, ?_, ?_⟩
  · rw [getMethod_eq_some_iff, hk]
    rw [hk] at h
    exact resolvesTo_of_isCaseVariant k nm token h
  · rw [getMethod_eq_some_iff, hk]
    exact resolvesTo_of_isCaseVariant k nm _ (isCaseVariant_self _)

/-- C4, on the variant `rUn` of `run`. -/
theorem getMethod_case_insensitive_witness :
    "run" ∈ supportedNames ∧ isCaseVariant (ascii "run") (ascii "rUn") = true ∧
    ∃ m, commandName m = "run" ∧ getMethod (ascii "rUn") = some (some m, true)
      ∧ getMethod (ascii "run") = some (some m, true) :=
  ⟨by decide, by decide,
    getMethod_case_insensitive "run" (ascii "rUn") (by decide) (by decide)⟩

/-- C5 as stated fails: the token `buİld` (bytes 62 75 C4 B0 6C 64, with
U+0130 where `build` has its `i`) is found, with the handler of `build`,
although it is a casing variant of none of the 36 names. -/
theorem getMethod_closed_set_counterexample :
    getMethod [0x62, 0x75, 0xC4, 0xB0, 0x6C, 0x64] = some (some .Build, true)
      ∧ ∀ name ∈ supportedNames,
          isCaseVariant (ascii name) [0x62, 0x75, 0xC4, 0xB0, 0x6C, 0x64] = false := by
  decide

/-- C5, amended: a token is found, with the handler of a name, exactly when its
first byte is the first letter of the name in either case and
`strings.ToLower` takes the rest to the rest of the name (each later letter in
either case, or U+0130 for an `i`, U+212A for a `k`); every other token is not
found and comes with no handler; a token of ASCII bytes is found exactly when
it is a casing variant of a supported name; `frobnicate`, `r`, `ps ` and
`CmdPs` are not found. -/
theorem getMethod_closed_set :
    (∀ token m, getMethod token = some (some m, true)
        ↔ resolvesTo (ascii (commandName m)) token = true)
      ∧ (∀ token, getMethod token = some (none, false)
        ↔ ∀ m, resolvesTo (ascii (commandName m)) token = false)
      ∧ (∀ token, (∀ b ∈ token, b.val < 0x80) → ∀ m,
          (getMethod token = some (some m, true)
            ↔ isCaseVariant (ascii (commandName m)) token = true))
      ∧ getMethod (ascii "frobnicate") = some (none, false)
      ∧ getMethod (ascii "r") = some (none, false)
      ∧ getMethod (ascii "ps ") = some (none, false)
      ∧ getMethod (ascii "CmdPs") = some (none, false) := by
  refine ⟨getMethod_eq_some_iff, getMethod_eq_none_iff, ?_, by decide, by decide, by decide,
    by decide⟩
  intro token ha m
  rw [getMethod_eq_some_iff]
  obtain ⟨k, nm, hk, _, _⟩ := commandName_letters m
  rw [hk]
  constructor
  · intro h
    cases token with
    | nil => simp [resolvesTo] at h
    | cons d rest =>
      simp only [resolvesTo, Bool.and_eq_true, Bool.or_eq_true, decide_eq_true_eq] at h
      simp only [isCaseVariant, Bool.and_eq_true, Bool.or_eq_true, decide_eq_true_eq]
      exact ⟨h.1, isCaseVariant_of_lowersTo nm rest
        (fun b hb => ha b (List.mem_cons_of_mem _ hb)) h.2⟩
  · exact resolvesTo_of_isCaseVariant k nm token

set_option maxRecDepth 8000 in
/-- C5, amended, on the ASCII token `PUSH` and on `buİld`. -/
theorem getMethod_closed_set_witness :
    (∀ b ∈ ascii "PUSH", b.val < 0x80)
      ∧ (getMethod (ascii "PUSH") = some (some .Push, true)
        ↔ isCaseVariant (ascii (commandName .Push)) (ascii "PUSH") = true)
      ∧ (getMethod [0x62, 0x75, 0xC4, 0xB0, 0x6C, 0x64] = some (some .Build, true)
        ↔ resolvesTo (ascii (commandName .Build)) [0x62, 0x75, 0xC4, 0xB0, 0x6C, 0x64] = true) :=
  ⟨by decide, getMethod_closed_set.2.2.1 (ascii "PUSH") (by decide) .Push,
    getMethod_closed_set.1 _ .Build⟩

/-- C6: the empty token is not found and comes with no handler, and `Cmd` on an
empty first token takes the not-found path whatever follows. -/
theorem getMethod_empty :
    getMethod [] = some (none, false)
      ∧ ∀ (σ : Type) (handlers : Handlers σ) (rest : List GoString) (s : State σ),
        Cmd handlers ([] :: rest) s
          = some (handlers .Help rest (Println [ascii "Error: Command not found:", []] s)) := by
  have h : getMethod [] = some (none, false) := by decide
  refine ⟨h, ?_⟩
  intro σ handlers rest s
  simp [Cmd, index, sliceFrom, h]

/-! ## Construction -/

/-- C7: the scheme is `https` exactly when a TLS configuration is given and
`http` exactly when none is; it is never anything else. -/
theorem NewDockerCli_scheme (IsTerminal : Nat → Bool) («in» : Option ReadCloser)
    (out err : Option Writer) (proto addr : GoString) (tlsConfig : Option TLSConfig) :
    ((NewDockerCli IsTerminal «in» out err proto addr tlsConfig).scheme = ascii "https"
        ↔ tlsConfig ≠ none)
      ∧ ((NewDockerCli IsTerminal «in» out err proto addr tlsConfig).scheme = ascii "http"
        ↔ tlsConfig = none) := by
  have hne : ascii "https" ≠ ascii "http" := by decide
  cases tlsConfig with
  | none => simp [NewDockerCli, hne.symm]
  | some t => simp [NewDockerCli, hne]

/-- C8: `isTerminal` is true exactly when an input stream is given, the output
stream is a `*os.File` and the probe reports its descriptor as a terminal; with
no input stream it is false whatever the output stream and the probe are. -/
theorem NewDockerCli_isTerminal (IsTerminal : Nat → Bool) («in» : Option ReadCloser)
    (out err : Option Writer) (proto addr : GoString) (tlsConfig : Option TLSConfig) :
    ((NewDockerCli IsTerminal «in» out err proto addr tlsConfig).isTerminal = true
        ↔ «in» ≠ none ∧ ∃ fd, out = some (.osFile fd) ∧ IsTerminal fd = true)
      ∧ (NewDockerCli IsTerminal none out err proto addr tlsConfig).isTerminal = false := by
  refine ⟨?_, by simp [NewDockerCli]⟩
  cases «in» with
  | none => simp [NewDockerCli]
  | some i =>
    cases out with
    | none => simp [NewDockerCli]
    | some w =>
      cases w with
      | osFile fd => simp [NewDockerCli]
      | other id => simp [NewDockerCli]

/-- C9 as stated fails: with an input stream and the output redirected to a
regular file (descriptor 1, which the probe reports as no terminal),
`isTerminal` is false and `terminalFd` is 1, not zero. -/
theorem NewDockerCli_terminalFd_counterexample :
    (NewDockerCli (fun _ => false) (some ⟨0⟩) (some (.osFile 1)) none (ascii "unix")
        (ascii "/var/run/docker.sock") none).isTerminal = false
      ∧ (NewDockerCli (fun _ => false) (some ⟨0⟩) (some (.osFile 1)) none (ascii "unix")
        (ascii "/var/run/docker.sock") none).terminalFd = 1
      ∧ (1 : Nat) ≠ 0 := by
  decide

/-- C9, amended: the descriptor is recorded whenever an input stream is given
and the output stream is a `*os.File`, whatever the probe reports; when no
input stream is given or the output stream is not a `*os.File`, `terminalFd`
is left at zero. -/
theorem NewDockerCli_terminalFd (IsTerminal : Nat → Bool) («in» : Option ReadCloser)
    (out err : Option Writer) (proto addr : GoString) (tlsConfig : Option TLSConfig) :
    (∀ fd, «in» ≠ none → out = some (.osFile fd) →
        (NewDockerCli IsTerminal «in» out err proto addr tlsConfig).terminalFd = fd)
      ∧ ((«in» = none ∨ ∀ fd, out ≠ some (.osFile fd)) →
        (NewDockerCli IsTerminal «in» out err proto addr tlsConfig).terminalFd = 0) := by
  constructor
  · intro fd hin hout
    subst hout
    simp [NewDockerCli, hin]
  · rintro (hin | hout)
    · subst hin
      simp [NewDockerCli]
    · cases out with
      | none => simp [NewDockerCli]
      | some w =>
        cases w with
        | osFile fd => exact absurd rfl (hout fd)
        | other id => simp [NewDockerCli]

/-- C9, amended, with an input stream and a file of descriptor 7 as output, and
with no input stream. -/
theorem NewDockerCli_terminalFd_witness :
    (NewDockerCli (fun _ => false) (some ⟨0⟩) (some (.osFile 7)) none [] [] none).terminalFd = 7
      ∧ (NewDockerCli (fun _ => true) none (some (.osFile 7)) none [] [] none).terminalFd = 0 :=
  ⟨(NewDockerCli_terminalFd (fun _ => false) (some ⟨0⟩) (some (.osFile 7)) none [] [] none).1 7
      (by decide) rfl,
    (NewDockerCli_terminalFd (fun _ => true) none (some (.osFile 7)) none [] [] none).2
      (Or.inl rfl)⟩

/-- C10 as stated fails: when neither an error stream nor an output stream is
given, the error stream of the context is nil. -/
theorem NewDockerCli_err_counterexample :
    (NewDockerCli (fun _ => false) none none none (ascii "unix")
        (ascii "/var/run/docker.sock") none).err = none := by
  decide

/-- C10, amended: the error stream of the context is nil only when both the
`err` and the `out` argument are nil; whenever an error stream or an output
stream is given it is set. -/
theorem NewDockerCli_err_set (IsTerminal : Nat → Bool) («in» : Option ReadCloser)
    (out err : Option Writer) (proto addr : GoString) (tlsConfig : Option TLSConfig) :
    (NewDockerCli IsTerminal «in» out err proto addr tlsConfig).err = none
      ↔ err = none ∧ out = none := by
  cases err with
  | none => simp [NewDockerCli]
  | some e => simp [NewDockerCli]


/-! ## Flag sets -/

theorem define_fold (fs : List Flag) : ∀ flags : FlagSet,
    (fs.foldl FlagSet.define flags).formal = flags.formal ++ fs
      ∧ (fs.foldl FlagSet.define flags).Usage = flags.Usage
      ∧ (fs.foldl FlagSet.define flags).name = flags.name := by
  induction fs with
  | nil => intro flags; simp
  | cons f fs ih =>
    intro flags
    obtain ⟨h1, h2, h3⟩ := ih (flags.define f)
    simp only [List.foldl_cons]
    rw [h1, h2, h3]
    simp [FlagSet.define]

/-- The flags of a flag set made by `Subcmd` are the flags registered on it
afterwards, and its `Usage` stays the closure of `Subcmd`. -/
theorem Subcmd_defineAll (name signature description : GoString) (registered : List Flag) :
    ((Subcmd name signature description).defineAll registered).formal = registered
      ∧ ((Subcmd name signature description).defineAll registered).Usage
          = some { name := name, signature := signature, description := description } := by
  obtain ⟨h1, h2, _⟩ := define_fold registered (Subcmd name signature description)
  exact ⟨by simpa [FlagSet.defineAll, Subcmd, NewFlagSet] using h1,
    by simpa [FlagSet.defineAll, Subcmd, NewFlagSet] using h2⟩

/-- The count of undeprecated flags is positive exactly when some registered
flag is not deprecated. -/
theorem FlagCountUndeprecated_pos (flags : FlagSet) :
    flags.FlagCountUndeprecated > 0 ↔ ∃ f ∈ flags.formal, f.deprecated = false := by
  simp [FlagSet.FlagCountUndeprecated, List.length_pos, List.filter_eq_nil_iff]

/-- The value of `options` in the closure, by the flags registered after `Subcmd`. -/
theorem usageOptions_defineAll (name signature description : GoString) (registered : List Flag) :
    ((∃ f ∈ registered, f.deprecated = false) →
        usageOptions ((Subcmd name signature description).defineAll registered)
          = ascii "[OPTIONS] ")
      ∧ ((∀ f ∈ registered, f.deprecated = true) →
        usageOptions ((Subcmd name signature description).defineAll registered) = []) := by
  have hf := (Subcmd_defineAll name signature description registered).1
  have hp := FlagCountUndeprecated_pos ((Subcmd name signature description).defineAll registered)
  rw [hf] at hp
  constructor
  · intro h
    simp only [usageOptions]
    rw [if_pos (hp.2 h)]
  · intro h
    have : ¬ ((Subcmd name signature description).defineAll registered).FlagCountUndeprecated > 0 := by
      rw [hp]
      rintro ⟨f, hfm, hd⟩
      rw [h f hfm] at hd
      exact absurd hd (by decide)
    simp only [usageOptions]
    rw [if_neg this]
    rfl

/-- A word that occurs in `a ++ x` and whose first element does not occur in
`a` occurs in `x`. -/
theorem infix_of_infix_append {α : Type} (p : α) (ps : List α) :
    ∀ (a x : List α), p ∉ a → (p :: ps) <:+: a ++ x → (p :: ps) <:+: x := by
  intro a
  induction a with
  | nil => intro x _ h; simpa using h
  | cons c a ih =>
    intro x hp h
    have hpc : p ≠ c := fun e => hp (by rw [e]; exact List.mem_cons_self _ _)
    have hpa : p ∉ a := fun e => hp (List.mem_cons_of_mem _ e)
    obtain ⟨s, t, hst⟩ := h
    cases s with
    | nil =>
      simp only [List.nil_append, List.cons_append] at hst
      exact absurd (List.cons.inj hst).1 hpc
    | cons d s =>
      simp only [List.cons_append] at hst
      exact ih x hpa ⟨s, t, by simpa using (List.cons.inj hst).2⟩


/-! ## The error stream -/

/-- C11: the error stream of the context is the `err` argument when one is
given, and the `out` argument when none is. -/
theorem NewDockerCli_err_default (IsTerminal : Nat → Bool) («in» : Option ReadCloser)
    (out err : Option Writer) (proto addr : GoString) (tlsConfig : Option TLSConfig) :
    (∀ e, err = some e →
        (NewDockerCli IsTerminal «in» out err proto addr tlsConfig).err = some e)
      ∧ (err = none → (NewDockerCli IsTerminal «in» out err proto addr tlsConfig).err = out) := by
  constructor
  · intro e he
    subst he
    simp [NewDockerCli]
  · intro he
    subst he
    simp [NewDockerCli]

/-- C11, with `os.Stderr` given as error stream, and with none given and
`os.Stdout` as output. -/
theorem NewDockerCli_err_default_witness :
    (NewDockerCli (fun _ => false) none (some osStdout) (some osStderr) [] [] none).err
        = some osStderr
      ∧ (NewDockerCli (fun _ => false) none (some osStdout) none [] [] none).err
        = some osStdout :=
  ⟨(NewDockerCli_err_default (fun _ => false) none (some osStdout) (some osStderr) [] []
      none).1 osStderr rfl,
    (NewDockerCli_err_default (fun _ => false) none (some osStdout) none [] [] none).2 rfl⟩

/-! ## Usage text -/

/-- C12 as stated fails: `Subcmd("build", "[OPTIONS] PATH", "Build an image")`
with no flag registered has a `Usage` callback that prints the usage line
`Usage: docker build [OPTIONS] PATH`, which contains `[OPTIONS]`. -/
theorem Subcmd_options_counterexample :
    (¬ ∃ f ∈ ([] : List Flag), f.deprecated = false)
      ∧ (FlagSet.callUsage (fun _ s => s)
            ((Subcmd (ascii "build") (ascii "[OPTIONS] PATH")
              (ascii "Build an image")).defineAll [])
            (stateWith (some osStdout) (some osStderr))).map (fun r => (r.1, r.2.writes))
          = some (.exited 2,
              [(osStderr, ascii "\n" ++ ascii "Usage: docker build [OPTIONS] PATH" ++ ascii "\n\n"
                ++ ascii "Build an image" ++ ascii "\n\n")])
      ∧ ascii "[OPTIONS]" <:+: ascii "Usage: docker build [OPTIONS] PATH" :=
  ⟨by simp, by decide, ⟨ascii "Usage: docker build ", ascii " PATH", by decide⟩⟩

/-- C12, amended: when the error stream of the context is set, the `Usage`
callback of the flag set that `Subcmd` returns prints, after a newline, the
usage line `Usage: docker <name> [OPTIONS] <signature>` when at least one flag
that is not deprecated has been registered on the set, and
`Usage: docker <name> <signature>` when none has; so, when `<name> <signature>`
does not itself contain `[OPTIONS]`, the printed usage line contains
`[OPTIONS]` exactly when at least one flag that is not deprecated is
registered. -/
theorem Subcmd_options {σ : Type} (PrintDefaults : FlagSet → State σ → State σ)
    (name signature description : GoString) (registered : List Flag) (s : State σ)
    (e : Writer) (he : s.cli.err = some e) :
    ∃ line,
      FlagSet.callUsage PrintDefaults ((Subcmd name signature description).defineAll registered) s
          = some (.exited 2,
              PrintDefaults ((Subcmd name signature description).defineAll registered)
                { s with writes := s.writes ++
                    [(e, ascii "\n" ++ line ++ ascii "\n\n" ++ description ++ ascii "\n\n")] })
        ∧ ((∃ f ∈ registered, f.deprecated = false) →
            line = ascii "Usage: docker " ++ name ++ ascii " [OPTIONS] " ++ signature)
        ∧ ((∀ f ∈ registered, f.deprecated = true) →
            line = ascii "Usage: docker " ++ name ++ ascii " " ++ signature)
        ∧ (¬ ascii "[OPTIONS]" <:+: name ++ ascii " " ++ signature →
            (ascii "[OPTIONS]" <:+: line ↔ ∃ f ∈ registered, f.deprecated = false)) := by
  obtain ⟨hsome, hnone⟩ := usageOptions_defineAll name signature description registered
  have hU := (Subcmd_defineAll name signature description registered).2
  have hsp : ascii " [OPTIONS] " = ascii " " ++ ascii "[OPTIONS] " := by decide
  have h1 : (∃ f ∈ registered, f.deprecated = false) →
      ascii "Usage: docker " ++ name ++ ascii " "
          ++ usageOptions ((Subcmd name signature description).defineAll registered) ++ signature
        = ascii "Usage: docker " ++ name ++ ascii " [OPTIONS] " ++ signature := by
    intro h
    rw [hsome h, hsp]
    simp [List.append_assoc]
  have h2 : (∀ f ∈ registered, f.deprecated = true) →
      ascii "Usage: docker " ++ name ++ ascii " "
          ++ usageOptions ((Subcmd name signature description).defineAll registered) ++ signature
        = ascii "Usage: docker " ++ name ++ ascii " " ++ signature := by
    intro h
    rw [hnone h]
    simp [List.append_assoc]
  refine ⟨ascii "Usage: docker " ++ name ++ ascii " "
      ++ usageOptions ((Subcmd name signature description).defineAll registered) ++ signature,
    ?_, h1, h2, ?_⟩
  · simp [FlagSet.callUsage, hU, UsageClosure.call, Fprintf, he, usageText, usageLine,
      List.append_assoc]
  · intro hno
    constructor
    · intro hin
      by_contra hnot
      have hall : ∀ f ∈ registered, f.deprecated = true := by
        intro f hf
        by_contra hd
        exact hnot ⟨f, hf, by simpa using hd⟩
      rw [h2 hall, List.append_assoc, List.append_assoc] at hin
      have hb : ascii "[OPTIONS]" = (0x5B : Byte) :: ascii "OPTIONS]" := by decide
      rw [hb] at hin hno
      rw [List.append_assoc] at hno
      exact hno (infix_of_infix_append (0x5B : Byte) (ascii "OPTIONS]") (ascii "Usage: docker ")
        (name ++ (ascii " " ++ signature)) (by decide) hin)
    · intro h
      rw [h1 h]
      exact ⟨ascii "Usage: docker " ++ name ++ ascii " ", ascii " " ++ signature, by
        have : ascii " [OPTIONS] " = ascii " " ++ ascii "[OPTIONS]" ++ ascii " " := by decide
        rw [this]
        simp [List.append_assoc]⟩

/-- C12, amended, on `docker run` with one flag registered and `os.Stderr` as
error stream. -/
theorem Subcmd_options_witness :
    (stateWith (some osStdout) (some osStderr)).cli.err = some osStderr
      ∧ ∃ line,
        FlagSet.callUsage (fun _ s => s)
            ((Subcmd (ascii "run") (ascii "IMAGE") (ascii "Run a command")).defineAll
              [⟨ascii "d", false⟩])
            (stateWith (some osStdout) (some osStderr))
          = some (.exited 2,
              (fun _ s => s)
                ((Subcmd (ascii "run") (ascii "IMAGE") (ascii "Run a command")).defineAll
                  [⟨ascii "d", false⟩])
                { stateWith (some osStdout) (some osStderr) with
                  writes := (stateWith (some osStdout) (some osStderr)).writes ++
                    [(osStderr, ascii "\n" ++ line ++ ascii "\n\n" ++ ascii "Run a command"
                      ++ ascii "\n\n")] })
        ∧ ((∃ f ∈ [(⟨ascii "d", false⟩ : Flag)], f.deprecated = false) →
            line = ascii "Usage: docker " ++ ascii "run" ++ ascii " [OPTIONS] " ++ ascii "IMAGE")
        ∧ ((∀ f ∈ [(⟨ascii "d", false⟩ : Flag)], f.deprecated = true) →
            line = ascii "Usage: docker " ++ ascii "run" ++ ascii " " ++ ascii "IMAGE")
        ∧ (¬ ascii "[OPTIONS]" <:+: ascii "run" ++ ascii " " ++ ascii "IMAGE" →
            (ascii "[OPTIONS]" <:+: line
              ↔ ∃ f ∈ [(⟨ascii "d", false⟩ : Flag)], f.deprecated = false)) :=
  ⟨rfl, Subcmd_options (fun _ s => s) (ascii "run") (ascii "IMAGE") (ascii "Run a command")
    [⟨ascii "d", false⟩] (stateWith (some osStdout) (some osStderr)) osStderr rfl⟩

/-- C13 as stated fails: on the context that `NewDockerCli` builds when neither
an output nor an error stream is given, the error stream is nil, the call of
`fmt.Fprintf` panics, nothing is written and `os.Exit(2)` is not reached. -/
theorem Subcmd_usage_counterexample :
    (stateWith none none).cli.err = none
      ∧ (UsageClosure.call (fun _ s => s) ⟨ascii "run", ascii "IMAGE", ascii "Run a command"⟩
          (Subcmd (ascii "run") (ascii "IMAGE") (ascii "Run a command"))
          (stateWith none none)).1 = .panicked
      ∧ (UsageClosure.call (fun _ s => s) ⟨ascii "run", ascii "IMAGE", ascii "Run a command"⟩
          (Subcmd (ascii "run") (ascii "IMAGE") (ascii "Run a command"))
          (stateWith none none)).2.writes = [] := by
  decide

/-- C13, amended: when the error stream of the context is set, the closure that
`Subcmd` installs writes to it, in one write, exactly
`"\nUsage: docker <name> [OPTIONS] <signature>\n\n<description>\n\n"`, with
`"[OPTIONS] "` left out when no flag that is not deprecated is registered, then
calls `PrintDefaults` and ends the process with status 2; when the error stream
is nil it panics in `fmt.Fprintf` instead, with nothing written. -/
theorem Subcmd_usage {σ : Type} (PrintDefaults : FlagSet → State σ → State σ)
    (name signature description : GoString) (registered : List Flag) (s : State σ) :
    ((Subcmd name signature description).defineAll registered).Usage
        = some { name := name, signature := signature, description := description }
      ∧ (∀ e, s.cli.err = some e →
          UsageClosure.call PrintDefaults
              { name := name, signature := signature, description := description }
              ((Subcmd name signature description).defineAll registered) s
            = (.exited 2,
                PrintDefaults ((Subcmd name signature description).defineAll registered)
                  { s with writes := s.writes ++
                      [(e, ascii "\nUsage: docker " ++ name ++ ascii " "
                          ++ usageOptions ((Subcmd name signature description).defineAll registered)
                          ++ signature ++ ascii "\n\n" ++ description ++ ascii "\n\n")] }))
      ∧ (s.cli.err = none →
          UsageClosure.call PrintDefaults
              { name := name, signature := signature, description := description }
              ((Subcmd name signature description).defineAll registered) s
            = (.panicked, s))
      ∧ ((∃ f ∈ registered, f.deprecated = false) →
          usageOptions ((Subcmd name signature description).defineAll registered)
            = ascii "[OPTIONS] ")
      ∧ ((∀ f ∈ registered, f.deprecated = true) →
          usageOptions ((Subcmd name signature description).defineAll registered) = []) := by
  obtain ⟨hsome, hnone⟩ := usageOptions_defineAll name signature description registered
  refine ⟨(Subcmd_defineAll name signature description registered).2, ?_, ?_, hsome, hnone⟩
  · intro e he
    have hnl : ascii "\nUsage: docker " = ascii "\n" ++ ascii "Usage: docker " := by decide
    simp [UsageClosure.call, Fprintf, he, usageText, usageLine, hnl, List.append_assoc]
  · intro he
    simp [UsageClosure.call, Fprintf, he]

/-- C13, amended, on `docker run` with one flag registered and `os.Stderr` as
error stream, and on the context without streams. -/
theorem Subcmd_usage_witness :
    (UsageClosure.call (fun _ s => s) ⟨ascii "run", ascii "IMAGE", ascii "Run a command"⟩
        ((Subcmd (ascii "run") (ascii "IMAGE") (ascii "Run a command")).defineAll
          [⟨ascii "d", false⟩])
        (stateWith (some osStdout) (some osStderr))).1 = .exited 2
      ∧ (UsageClosure.call (fun _ s => s) ⟨ascii "run", ascii "IMAGE", ascii "Run a command"⟩
        ((Subcmd (ascii "run") (ascii "IMAGE") (ascii "Run a command")).defineAll
          [⟨ascii "d", false⟩])
        (stateWith none none)).1 = .panicked :=
  ⟨congrArg Prod.fst
      ((Subcmd_usage (fun _ s => s) (ascii "run") (ascii "IMAGE") (ascii "Run a command")
        [⟨ascii "d", false⟩] (stateWith (some osStdout) (some osStderr))).2.1 osStderr rfl),
    congrArg Prod.fst
      ((Subcmd_usage (fun _ s => s) (ascii "run") (ascii "IMAGE") (ascii "Run a command")
        [⟨ascii "d", false⟩] (stateWith none none)).2.2.1 rfl)⟩

/-! ## Configuration loading -/

/-- C14 as stated fails: when the loader fails and returns an empty
configuration with its error, the configuration cached before is replaced by
it. -/
theorem LoadConfigFile_failure_counterexample :
    (failingLoader.LoadConfig cachedState.ext
        (failingLoader.Getenv cachedState.ext (ascii "HOME"))).2 ≠ none
      ∧ cachedState.cli.configFile = some ⟨0⟩
      ∧ (LoadConfigFile failingLoader cachedState).2.cli.configFile = some ⟨1⟩
      ∧ (LoadConfigFile failingLoader cachedState).2.cli.configFile
          ≠ cachedState.cli.configFile := by
  decide

/-- C14, amended: whenever the loader fails, the cached configuration becomes
what the loader returned with its error, whatever was cached before, so it is
unchanged only when the loader returns the cached value again; and when the
error stream of the context is set, `LoadConfigFile` returns the error of the
loader, which is not nil. -/
theorem LoadConfigFile_failure {σ : Type} (env : Loader σ) (s : State σ)
    (cfg : Option ConfigFile) (e : GoError)
    (h : env.LoadConfig s.ext (env.Getenv s.ext (ascii "HOME")) = (cfg, some e)) :
    (LoadConfigFile env s).2.cli.configFile = cfg
      ∧ ((LoadConfigFile env s).2.cli.configFile = s.cli.configFile ↔ cfg = s.cli.configFile)
      ∧ (∀ w, s.cli.err = some w → (LoadConfigFile env s).1 = .returned (some e)) := by
  have h1 : (LoadConfigFile env s).2.cli.configFile = cfg := by
    cases herr : s.cli.err <;> simp [LoadConfigFile, h, Fprintf, herr]
  refine ⟨h1, by rw [h1], ?_⟩
  intro w hw
  simp [LoadConfigFile, h, Fprintf, hw]

/-- C14, amended, on the failing loader and a context with a cached
configuration. -/
theorem LoadConfigFile_failure_witness :
    (LoadConfigFile failingLoader cachedState).2.cli.configFile = some ⟨1⟩
      ∧ (LoadConfigFile failingLoader cachedState).1
          = .returned (some ⟨ascii "open /root/.dockercfg: permission denied"⟩) :=
  ⟨(LoadConfigFile_failure failingLoader cachedState (some ⟨1⟩)
      ⟨ascii "open /root/.dockercfg: permission denied"⟩ rfl).1,
    (LoadConfigFile_failure failingLoader cachedState (some ⟨1⟩)
      ⟨ascii "open /root/.dockercfg: permission denied"⟩ rfl).2.2 osStderr rfl⟩

/-- C15 as stated fails: on the context that `NewDockerCli` builds when neither
an output nor an error stream is given, a failing load ends in the panic of
`fmt.Fprintf` on the nil error stream: no error is returned. -/
theorem LoadConfigFile_result_counterexample :
    (stateWith none none).cli.err = none
      ∧ (failingLoader.LoadConfig (stateWith none none).ext
          (failingLoader.Getenv (stateWith none none).ext (ascii "HOME"))).2 ≠ none
      ∧ (LoadConfigFile failingLoader (stateWith none none)).1 = .panicked := by
  decide

/-- C15, amended: `LoadConfigFile` never calls `os.Exit`; when the load succeeds
it returns nil and writes nothing; when the load fails and the error stream of
the context is set, it returns the error of the loader unchanged after one
write to the error stream, of `"WARNING: "`, the message of the error and a
newline; when the load fails and the error stream is nil, it panics in
`fmt.Fprintf` with nothing written. -/
theorem LoadConfigFile_result {σ : Type} (env : Loader σ) (s : State σ) :
    (∀ status, (LoadConfigFile env s).1 ≠ .exited status)
      ∧ ((env.LoadConfig s.ext (env.Getenv s.ext (ascii "HOME"))).2 = none →
          (LoadConfigFile env s).1 = .returned none
            ∧ (LoadConfigFile env s).2.writes = s.writes)
      ∧ (∀ e w, (env.LoadConfig s.ext (env.Getenv s.ext (ascii "HOME"))).2 = some e →
          s.cli.err = some w →
          (LoadConfigFile env s).1 = .returned (some e)
            ∧ (LoadConfigFile env s).2.writes
                = s.writes ++ [(w, ascii "WARNING: " ++ e.msg ++ ascii "\n")])
      ∧ (∀ e, (env.LoadConfig s.ext (env.Getenv s.ext (ascii "HOME"))).2 = some e →
          s.cli.err = none →
          (LoadConfigFile env s).1 = .panicked
            ∧ (LoadConfigFile env s).2.writes = s.writes) := by
  refine ⟨?_, ?_, ?_, ?_⟩
  · intro status
    cases hl : (env.LoadConfig s.ext (env.Getenv s.ext (ascii "HOME"))).2 <;>
      cases herr : s.cli.err <;> simp [LoadConfigFile, hl, Fprintf, herr]
  · intro hl
    simp [LoadConfigFile, hl]
  · intro e w hl herr
    simp [LoadConfigFile, hl, Fprintf, herr]
  · intro e hl herr
    simp [LoadConfigFile, hl, Fprintf, herr]

/-- C15, amended, on a successful load and on a failing load with `os.Stderr` as
error stream. -/
theorem LoadConfigFile_result_witness :
    ((LoadConfigFile workingLoader cachedState).1 = .returned none
        ∧ (LoadConfigFile workingLoader cachedState).2.writes = cachedState.writes)
      ∧ ((LoadConfigFile failingLoader cachedState).1
          = .returned (some ⟨ascii "open /root/.dockercfg: permission denied"⟩)
        ∧ (LoadConfigFile failingLoader cachedState).2.writes
          = cachedState.writes ++ [(osStderr, ascii "WARNING: "
              ++ (GoError.mk (ascii "open /root/.dockercfg: permission denied")).msg
              ++ ascii "\n")]) :=
  ⟨(LoadConfigFile_result workingLoader cachedState).2.1 rfl,
    (LoadConfigFile_result failingLoader cachedState).2.2.1
      ⟨ascii "open /root/.dockercfg: permission denied"⟩ osStderr rfl rfl⟩

/-- C16: after every call of `LoadConfigFile`, however it ends, the cached
configuration is what the loader returned on that call, whatever was cached
before, and the context is otherwise unchanged, as is the rest of the state
apart from the writes. -/
theorem LoadConfigFile_frame {σ : Type} (env : Loader σ) (s : State σ) :
    (LoadConfigFile env s).2.cli
        = { s.cli with
            configFile := (env.LoadConfig s.ext (env.Getenv s.ext (ascii "HOME"))).1 }
      ∧ (LoadConfigFile env s).2.ext = s.ext
      ∧ (∀ prior, (LoadConfigFile env { s with cli := { s.cli with configFile := prior } }).2.cli
          = (LoadConfigFile env s).2.cli)
      ∧ (LoadConfigFile env (LoadConfigFile env s).2).2.cli = (LoadConfigFile env s).2.cli := by
  have key : ∀ t : State σ, (LoadConfigFile env t).2.cli
        = { t.cli with
            configFile := (env.LoadConfig t.ext (env.Getenv t.ext (ascii "HOME"))).1 }
      ∧ (LoadConfigFile env t).2.ext = t.ext := by
    intro t
    cases hl : (env.LoadConfig t.ext (env.Getenv t.ext (ascii "HOME"))).2 <;>
      cases herr : t.cli.err <;> simp [LoadConfigFile, hl, Fprintf, herr]
  refine ⟨(key s).1, (key s).2, ?_, ?_⟩
  · intro prior
    rw [(key _).1, (key s).1]
  · rw [(key _).1, (key s).2, (key s).1]

/-! ## What `Cmd` itself does -/

/-- C17 as stated fails: on the context that `NewDockerCli` builds with
`os.Stdout` as output and no error stream, the error stream of the context is
`os.Stdout`, and the diagnostic of `Cmd("bogus")` is a write to it. -/
theorem Cmd_own_writes_counterexample :
    getMethod (ascii "bogus") = some (none, false)
      ∧ (stateWith (some osStdout) none).cli.err = some osStdout
      ∧ (Cmd recordingHandlers [ascii "bogus"] (stateWith (some osStdout) none)).map
          (fun r => r.2.writes)
        = some [(osStdout, ascii "Error: Command not found: bogus\n")]
      ∧ ∃ x ∈ (Println [ascii "Error: Command not found:", ascii "bogus"]
            (stateWith (some osStdout) none)).writes,
          some x.1 = (stateWith (some osStdout) none).cli.err := by
  decide

/-- C17, amended: on the not-found path `Cmd` itself makes exactly one write, of
the line `"Error: Command not found: <token>"` and a newline, to `os.Stdout`,
and none to any other stream, so none to the error stream of the context
unless that stream is `os.Stdout` itself; on the resolved path and on the
empty-arguments path the handler starts in the state `Cmd` was entered in:
`Cmd` itself writes nothing. -/
theorem Cmd_own_writes {σ : Type} (handlers : Handlers σ) (arg0 : GoString)
    (rest : List GoString) (s : State σ) :
    (∀ f, getMethod arg0 = some (f, false) →
        Cmd handlers (arg0 :: rest) s
            = some (handlers .Help rest (Println [ascii "Error: Command not found:", arg0] s))
          ∧ (Println [ascii "Error: Command not found:", arg0] s).writes
            = s.writes ++ [(osStdout, ascii "Error: Command not found: " ++ arg0 ++ ascii "\n")]
          ∧ (Println [ascii "Error: Command not found:", arg0] s).cli = s.cli
          ∧ (Println [ascii "Error: Command not found:", arg0] s).ext = s.ext
          ∧ ∀ w, w ≠ osStdout →
              (Println [ascii "Error: Command not found:", arg0] s).writes.filter
                  (fun x => decide (x.1 = w))
                = s.writes.filter (fun x => decide (x.1 = w)))
      ∧ (∀ m, getMethod arg0 = some (some m, true) →
          Cmd handlers (arg0 :: rest) s = some (handlers m rest s))
      ∧ Cmd handlers [] s = some (handlers .Help [] s) := by
  refine ⟨?_, ?_, by simp [Cmd]⟩
  · intro f h
    refine ⟨by simp [Cmd, index, sliceFrom, h], ?_, rfl, rfl, ?_⟩
    · simp [Println, Sprintln, List.intercalate, ascii]
    · intro w hw
      simp [Println, List.filter_append, List.filter_cons, Ne.symm hw]
  · intro m h
    simp [Cmd, index, sliceFrom, h]

/-- C17, amended, on `Cmd("bogus")` with `os.Stderr` as error stream: nothing is
written to `os.Stderr`. -/
theorem Cmd_own_writes_witness :
    getMethod (ascii "bogus") = some (none, false)
      ∧ osStderr ≠ osStdout
      ∧ (Println [ascii "Error: Command not found:", ascii "bogus"]
            (stateWith (some osStdout) (some osStderr))).writes.filter
              (fun x => decide (x.1 = osStderr))
          = (stateWith (some osStdout) (some osStderr)).writes.filter
              (fun x => decide (x.1 = osStderr)) :=
  ⟨by decide, by decide,
    ((Cmd_own_writes recordingHandlers (ascii "bogus") []
      (stateWith (some osStdout) (some osStderr))).1 none (by decide)).2.2.2.2 osStderr
      (by decide)⟩

/-- C18: no slice and no index of `getMethod` and `Cmd` is out of range, so
`getMethod` always returns, and `Cmd` is always one call of one handler, the
same whatever the handlers do. -/
theorem Cmd_total {σ : Type} (args : List GoString) (s : State σ) :
    (∀ name : GoString, name.length ≠ 0 →
        (sliceTo name 1).isSome = true ∧ (sliceFrom name 1).isSome = true)
      ∧ (∀ name : GoString, ∃ r, getMethod name = some r)
      ∧ (args.length > 0 → (index args 0).isSome = true ∧ (sliceFrom args 1).isSome = true)
      ∧ ∃ m rest s1, ∀ handlers : Handlers σ,
          Cmd handlers args s = some (handlers m rest s1) := by
  have hget : ∀ name : GoString,
      (∃ m, getMethod name = some (some m, true)) ∨ getMethod name = some (none, false) := by
    intro name
    cases name with
    | nil => right; decide
    | cons d t =>
      rw [getMethod_cons]
      rcases switchOn_cases (ascii "Cmd" ++ stringsToUpper [d] ++ stringsToLower t)
        switchCases with ⟨m, hm⟩ | hnone
      · exact Or.inl ⟨m, by rw [hm]⟩
      · exact Or.inr (by rw [hnone])
  refine ⟨?_, ?_, ?_, ?_⟩
  · intro name hn
    have : 1 ≤ name.length := Nat.one_le_iff_ne_zero.2 hn
    simp [sliceTo, sliceFrom, this]
  · intro name
    rcases hget name with ⟨m, hm⟩ | hnone
    · exact ⟨_, hm⟩
    · exact ⟨_, hnone⟩
  · intro hn
    cases args with
    | nil => simp at hn
    | cons a rest => simp [index, sliceFrom]
  · cases args with
    | nil => exact ⟨.Help, [], s, fun handlers => by simp [Cmd]⟩
    | cons a rest =>
      rcases hget a with ⟨m, hm⟩ | hnone
      · exact ⟨m, rest, s, fun handlers => by simp [Cmd, index, sliceFrom, hm]⟩
      · exact ⟨.Help, rest, Println [ascii "Error: Command not found:", a] s,
          fun handlers => by simp [Cmd, index, sliceFrom, hnone]⟩

/-- C19 as stated fails: a handler may look at what has been written, and
`CmdHelp` then sees the diagnostic line in one run and not in the other; with
the handlers `observingHandlers`, `Cmd("bogus", "x")` returns an error and
`Cmd("help", "x")` returns nil. -/
theorem Cmd_unresolved_as_help_counterexample :
    getMethod (ascii "bogus") = some (none, false)
      ∧ (Cmd observingHandlers [ascii "bogus", ascii "x"] freshState).map (fun r => r.1)
        = some (some ⟨ascii "output already started"⟩)
      ∧ (Cmd observingHandlers [ascii "help", ascii "x"] freshState).map (fun r => r.1)
        = some none := by
  decide

/-- C19, amended: for a token that does not resolve, `Cmd(t, tail...)` and
`Cmd("help", tail...)` are calls of the same handler, `CmdHelp`, with the same
arguments, in states that differ only in the one diagnostic line; for handlers
that cannot read what has been written, the two runs return the same result
and leave states that differ only in that line. -/
theorem Cmd_unresolved_as_help {σ : Type} (handlers : Handlers σ) (t : GoString)
    (tail : List GoString) (s : State σ) (f : Option Method)
    (h : getMethod t = some (f, false)) :
    Cmd handlers (t :: tail) s
        = some (handlers .Help tail (Println [ascii "Error: Command not found:", t] s))
      ∧ Cmd handlers (ascii "help" :: tail) s = some (handlers .Help tail s)
      ∧ Println [ascii "Error: Command not found:", t] s
        = { s with writes := s.writes ++
              [(osStdout, ascii "Error: Command not found: " ++ t ++ ascii "\n")] }
      ∧ (WriteOnly handlers →
          (handlers .Help tail (Println [ascii "Error: Command not found:", t] s)).1
              = (handlers .Help tail s).1
            ∧ (handlers .Help tail (Println [ascii "Error: Command not found:", t] s)).2.cli
              = (handlers .Help tail s).2.cli
            ∧ (handlers .Help tail (Println [ascii "Error: Command not found:", t] s)).2.ext
              = (handlers .Help tail s).2.ext
            ∧ ∃ own, (handlers .Help tail s).2.writes = s.writes ++ own
              ∧ (handlers .Help tail (Println [ascii "Error: Command not found:", t] s)).2.writes
                = s.writes
                  ++ (osStdout, ascii "Error: Command not found: " ++ t ++ ascii "\n") :: own) := by
  have hhelp : getMethod (ascii "help") = some (some .Help, true) := by decide
  have hp : Println [ascii "Error: Command not found:", t] s
      = { s with writes := s.writes ++
            [(osStdout, ascii "Error: Command not found: " ++ t ++ ascii "\n")] } := by
    simp [Println, Sprintln, List.intercalate, ascii]
  refine ⟨by simp [Cmd, index, sliceFrom, h], by simp [Cmd, index, sliceFrom, hhelp], hp, ?_⟩
  intro hw
  rw [hp]
  have h1 := hw .Help tail { s with writes := s.writes ++
      [(osStdout, ascii "Error: Command not found: " ++ t ++ ascii "\n")] }
  have h2 := hw .Help tail s
  simp only at h1
  refine ⟨?_, ?_, ?_, (handlers .Help tail { s with writes := [] }).2.writes, ?_, ?_⟩
  · rw [h1, h2]
  · rw [h1, h2]
  · rw [h1, h2]
  · rw [h2]
  · rw [h1]
    simp

/-- C19, amended, on `Cmd("bogus", "x")` and `Cmd("help", "x")` with handlers
that only record their call. -/
theorem Cmd_unresolved_as_help_witness :
    getMethod (ascii "bogus") = some (none, false)
      ∧ Cmd recordingHandlers [ascii "bogus", ascii "x"] freshState
        = some (recordingHandlers .Help [ascii "x"]
            (Println [ascii "Error: Command not found:", ascii "bogus"] freshState))
      ∧ Cmd recordingHandlers [ascii "help", ascii "x"] freshState
        = some (recordingHandlers .Help [ascii "x"] freshState)
      ∧ (recordingHandlers .Help [ascii "x"]
            (Println [ascii "Error: Command not found:", ascii "bogus"] freshState)).1
          = (recordingHandlers .Help [ascii "x"] freshState).1 :=
  have hw : WriteOnly recordingHandlers := fun _ _ _ => by simp [recordingHandlers]
  have h := Cmd_unresolved_as_help recordingHandlers (ascii "bogus") [ascii "x"] freshState none
    (by decide)
  ⟨by decide, h.1, h.2.1, (h.2.2.2 hw).1⟩

/-- C20: `NewDockerCli` stores `proto`, `addr`, `in`, `out` and `tlsConfig` as
they are given and leaves `configFile` nil. -/
theorem NewDockerCli_stores (IsTerminal : Nat → Bool) («in» : Option ReadCloser)
    (out err : Option Writer) (proto addr : GoString) (tlsConfig : Option TLSConfig) :
    (NewDockerCli IsTerminal «in» out err proto addr tlsConfig).proto = proto
      ∧ (NewDockerCli IsTerminal «in» out err proto addr tlsConfig).addr = addr
      ∧ (NewDockerCli IsTerminal «in» out err proto addr tlsConfig).«in» = «in»
      ∧ (NewDockerCli IsTerminal «in» out err proto addr tlsConfig).out = out
      ∧ (NewDockerCli IsTerminal «in» out err proto addr tlsConfig).tlsConfig = tlsConfig
      ∧ (NewDockerCli IsTerminal «in» out err proto addr tlsConfig).configFile = none :=
  ⟨rfl, rfl, rfl, rfl, rfl, rfl⟩

end Client
